import Mathlib

/-!
# Verification of the AgentiCorp runtime coordination layer

Shallow embedding of the Go sources into Lean 4, together with theorems
settling the specification claims about the loop detector
(`internal/dispatch/loop_detector.go`), the response cache
(`internal/cache/redis.go`), the lessons provider
(`internal/dispatch/lessons_provider.go`), the hash embedder and blob
codec (`internal/memory`), and the SSE streaming reader
(`internal/provider/streaming.go`).

Modelling conventions:
* Go machine integers are `Nat`/`Int` with explicit `% 2^32` where the code
  relies on 32-bit wraparound (the FNV and SHA-256 hash kernels).
* Wall-clock time is an `Int` counting seconds (Go `time.Time`/`Duration`
  scaled to seconds; `5 * time.Minute` becomes `300`).
* `float32`/`float64` vectors are modelled over `ℝ` (exact arithmetic); the
  integer accumulation phase of the hash embedder is kept over `ℤ` so it
  stays computable.
* The `encoding/json` layer is modelled by a three-state stored value:
  an absent/empty string, an invalid (unparseable) string, or a valid
  encoding of the typed payload.  `json.Marshal` of the record types used
  here cannot fail in Go (no channels, funcs or cycles), so marshalling is
  modelled as total.
-/

namespace AgentiCorp

/-! ## 32-bit arithmetic helpers -/

/-- 2^32, the modulus of Go's `uint32` arithmetic. -/
def m32 : Nat := 4294967296

/-- Addition modulo 2^32 (`uint32` `+`). -/
def add32 (a b : Nat) : Nat := (a + b) % m32

/-- Multiplication modulo 2^32 (`uint32` `*`). -/
def mul32 (a b : Nat) : Nat := (a * b) % m32

/-- Bitwise exclusive or; operands below 2^32 stay below 2^32. -/
def xor32 (a b : Nat) : Nat := a ^^^ b

/-- Bitwise and. -/
def and32 (a b : Nat) : Nat := a &&& b

/-- Bitwise complement on 32 bits (`^x` in Go for `uint32`). -/
def not32 (a : Nat) : Nat := a ^^^ (m32 - 1)

/-- Logical right shift (`x >> n`). -/
def shr32 (n a : Nat) : Nat := a >>> n

/-- Right rotation on 32 bits (`bits.RotateLeft32(x, -n)`). -/
def rotr32 (n a : Nat) : Nat := (a >>> n) + ((a % (2 ^ n)) <<< (32 - n))

/-! ## Byte-level helpers -/

/-- UTF-8 encoding of one Unicode scalar value (Go `[]byte(string)`). -/
def utf8Char (n : Nat) : List Nat :=
  if n < 0x80 then [n]
  else if n < 0x800 then [0xC0 + n / 64, 0x80 + n % 64]
  else if n < 0x10000 then
    [0xE0 + n / 4096, 0x80 + (n / 64) % 64, 0x80 + n % 64]
  else
    [0xF0 + n / 262144, 0x80 + (n / 4096) % 64, 0x80 + (n / 64) % 64,
     0x80 + n % 64]

/-- UTF-8 bytes of a string (Go `[]byte(s)`). -/
def utf8Bytes (s : String) : List Nat :=
  s.data.flatMap (fun c => utf8Char c.toNat)

/-- Lowercase hex digit for a nibble. -/
def hexDigit (n : Nat) : Char :=
  if n < 10 then Char.ofNat (48 + n) else Char.ofNat (87 + n)

/-- Lowercase hex rendering of a byte list (Go `hex.EncodeToString`). -/
def hexOfBytes (bs : List Nat) : String :=
  String.mk (bs.flatMap (fun b => [hexDigit (b / 16), hexDigit (b % 16)]))

/-! ## SHA-256 (`crypto/sha256`), over byte lists -/

/-- The 64 SHA-256 round constants (FIPS 180-4, in decimal). -/
def shaK : List Nat :=
  [1116352408, 1899447441, 3049323471, 3921009573, 961987163,
   1508970993, 2453635748, 2870763221, 3624381080, 310598401,
   607225278, 1426881987, 1925078388, 2162078206, 2614888103,
   3248222580, 3835390401, 4022224774, 264347078, 604807628,
   770255983, 1249150122, 1555081692, 1996064986, 2554220882,
   2821834349, 2952996808, 3210313671, 3336571891, 3584528711,
   113926993, 338241895, 666307205, 773529912, 1294757372,
   1396182291, 1695183700, 1986661051, 2177026350, 2456956037,
   2730485921, 2820302411, 3259730800, 3345764771, 3516065817,
   3600352804, 4094571909, 275423344, 430227734, 506948616,
   659060556, 883997877, 958139571, 1322822218, 1537002063,
   1747873779, 1955562222, 2024104815, 2227730452, 2361852424,
   2428436474, 2756734187, 3204031479, 3329325298]

/-- SHA-256 initial hash value (FIPS 180-4, in decimal). -/
def shaH0 : List Nat :=
  [1779033703, 3144134277, 1013904242, 2773480762,
   1359893119, 2600822924, 528734635, 1541459225]

/-- σ₀ message-schedule function. -/
def sigma0 (x : Nat) : Nat := xor32 (rotr32 7 x) (xor32 (rotr32 18 x) (shr32 3 x))

/-- σ₁ message-schedule function. -/
def sigma1 (x : Nat) : Nat := xor32 (rotr32 17 x) (xor32 (rotr32 19 x) (shr32 10 x))

/-- Σ₀ compression function. -/
def bigSigma0 (x : Nat) : Nat := xor32 (rotr32 2 x) (xor32 (rotr32 13 x) (rotr32 22 x))

/-- Σ₁ compression function. -/
def bigSigma1 (x : Nat) : Nat := xor32 (rotr32 6 x) (xor32 (rotr32 11 x) (rotr32 25 x))

/-- Ch(e,f,g). -/
def shaCh (e f g : Nat) : Nat := xor32 (and32 e f) (and32 (not32 e) g)

/-- Maj(a,b,c). -/
def shaMaj (a b c : Nat) : Nat := xor32 (and32 a b) (xor32 (and32 a c) (and32 b c))

/-- SHA-256 padding: append `0x80`, zeros, then the 64-bit big-endian bit
length, reaching a multiple of 64 bytes. -/
def shaPad (msg : List Nat) : List Nat :=
  let len := msg.length
  let z := (64 - ((len + 9) % 64)) % 64
  let bitLen := len * 8
  msg ++ [0x80] ++ List.replicate z 0 ++
    [(bitLen / 2 ^ 56) % 256, (bitLen / 2 ^ 48) % 256, (bitLen / 2 ^ 40) % 256,
     (bitLen / 2 ^ 32) % 256, (bitLen / 2 ^ 24) % 256, (bitLen / 2 ^ 16) % 256,
     (bitLen / 2 ^ 8) % 256, bitLen % 256]

/-- Split a byte list into chunks of `k` bytes (fuel-driven). -/
def chunksAux (k : Nat) : Nat → List Nat → List (List Nat)
  | 0, _ => []
  | _, [] => []
  | fuel + 1, l => l.take k :: chunksAux k fuel (l.drop k)

/-- Split a byte list into chunks of `k` bytes. -/
def chunks (k : Nat) (l : List Nat) : List (List Nat) := chunksAux k l.length l

/-- Big-endian 32-bit word from four bytes. -/
def wordOfBytes (bs : List Nat) : Nat :=
  bs.getD 0 0 * 2 ^ 24 + bs.getD 1 0 * 2 ^ 16 + bs.getD 2 0 * 2 ^ 8 + bs.getD 3 0

/-- Message-schedule extension: `acc` holds the words produced so far in
reverse order; produce `n` more words. -/
def shaExtend : Nat → List Nat → List Nat
  | 0, acc => acc
  | n + 1, acc =>
    let w2 := acc.getD 1 0
    let w7 := acc.getD 6 0
    let w15 := acc.getD 14 0
    let w16 := acc.getD 15 0
    shaExtend n (add32 (add32 (sigma1 w2) w7) (add32 (sigma0 w15) w16) :: acc)

/-- The 64-word message schedule of one 64-byte block. -/
def shaSchedule (block : List Nat) : List Nat :=
  let w16 := (chunks 4 block).map wordOfBytes
  (shaExtend 48 w16.reverse).reverse

/-- One compression round. -/
def shaRound (s : Nat × Nat × Nat × Nat × Nat × Nat × Nat × Nat) (kw : Nat × Nat) :
    Nat × Nat × Nat × Nat × Nat × Nat × Nat × Nat :=
  let (a, b, c, d, e, f, g, h) := s
  let t1 := add32 h (add32 (bigSigma1 e) (add32 (shaCh e f g) (add32 kw.1 kw.2)))
  let t2 := add32 (bigSigma0 a) (shaMaj a b c)
  (add32 t1 t2, a, b, c, add32 d t1, e, f, g)

/-- Compress one 64-byte block into the running hash state. -/
def shaCompress (hs : List Nat) (block : List Nat) : List Nat :=
  let ws := shaSchedule block
  let init := (hs.getD 0 0, hs.getD 1 0, hs.getD 2 0, hs.getD 3 0,
               hs.getD 4 0, hs.getD 5 0, hs.getD 6 0, hs.getD 7 0)
  let (a, b, c, d, e, f, g, h) := (shaK.zip ws).foldl shaRound init
  [add32 (hs.getD 0 0) a, add32 (hs.getD 1 0) b, add32 (hs.getD 2 0) c,
   add32 (hs.getD 3 0) d, add32 (hs.getD 4 0) e, add32 (hs.getD 5 0) f,
   add32 (hs.getD 6 0) g, add32 (hs.getD 7 0) h]

/-- Big-endian bytes of a 32-bit word. -/
def bytesOfWord (w : Nat) : List Nat :=
  [(w / 2 ^ 24) % 256, (w / 2 ^ 16) % 256, (w / 2 ^ 8) % 256, w % 256]

/-- SHA-256 digest (32 bytes) of a byte list (`sha256.Sum256`). -/
def sha256 (msg : List Nat) : List Nat :=
  ((chunks 64 (shaPad msg)).foldl shaCompress shaH0).flatMap bytesOfWord

/-! ## JSON-backed stored values

`internal/dispatch/loop_detector.go` keeps per-bead state as JSON strings
inside `bead.Context : map[string]string`.  A stored string is either empty
(`""`, treated by the code as absent), unparseable JSON (`json.Unmarshal`
fails), or a valid encoding of the typed payload.  `json.Marshal` of the
record types used here cannot fail, so encoding is the total `enc`. -/

inductive JsonStr (α : Type) where
  | empty : JsonStr α
  | invalid : JsonStr α
  | enc : α → JsonStr α
deriving DecidableEq

/-! ## Loop detector (`internal/dispatch/loop_detector.go`) -/

/-- A value stored in `ActionRecord.ActionData : map[string]interface{}`.
Go's type assertion `.(string)` succeeds exactly on `str`; any other JSON
value is kept only through its `fmt` `%v` rendering. -/
inductive DataVal where
  | str : String → DataVal
  | other : String → DataVal
deriving DecidableEq

/-- `fmt` `%v` rendering of a data value. -/
def DataVal.render : DataVal → String
  | .str s => s
  | .other r => r

/-- Insert into a key-sorted association list. -/
def insertSorted (p : String × DataVal) :
    List (String × DataVal) → List (String × DataVal)
  | [] => [p]
  | q :: t => if p.1 ≤ q.1 then p :: q :: t else q :: insertSorted p t

/-- Sort an association list by key (Go `fmt` prints maps sorted by key). -/
def sortByKey (l : List (String × DataVal)) : List (String × DataVal) :=
  l.foldr insertSorted []

/-- Go `fmt.Sprintf("%v", m)` for `m : map[string]interface{}`:
`map[k1:v1 k2:v2]` with keys sorted. -/
def mapFmt (data : List (String × DataVal)) : String :=
  "map[" ++ String.intercalate " "
    ((sortByKey data).map (fun p => p.1 ++ ":" ++ p.2.render)) ++ "]"

/-- `ActionRecord`: one agent action.  Timestamps are seconds as `Int`;
`ActionData` is an association list with the semantics of a Go map (at most
one value per key; examples keep keys distinct). -/
structure ActionRecord where
  timestamp : Int := 0
  agentID : String := ""
  actionType : String := ""
  actionData : List (String × DataVal) := []
  resultHash : String := ""
  progressKey : String := ""
deriving DecidableEq

/-- `ProgressMetrics`: progress counters for a bead.  `lastProgress = 0`
models Go's zero `time.Time` (`IsZero`). -/
structure ProgressMetrics where
  filesRead : Nat := 0
  filesModified : Nat := 0
  testsRun : Nat := 0
  commandsExecuted : Nat := 0
  lastProgress : Int := 0
deriving DecidableEq

/-- The two reserved `bead.Context` keys the loop detector touches.
`action_history` and `progress_metrics` each hold a JSON string. -/
structure BeadContext where
  actionHistory : JsonStr (List ActionRecord) := .empty
  progressMetrics : JsonStr ProgressMetrics := .empty
deriving DecidableEq

/-- The slice of `models.Bead` the loop detector uses: `Context` may be
`nil` (`none`). -/
structure Bead where
  id : String := ""
  context : Option BeadContext := none
deriving DecidableEq

/-- `LoopDetector` configuration. -/
structure LoopDetector where
  repeatThreshold : Nat
deriving DecidableEq

/-- `NewLoopDetector`: default threshold 3. -/
def newLoopDetector : LoopDetector := ⟨3⟩

/-- `SetRepeatThreshold`: clamp to a minimum of 2. -/
def setRepeatThreshold (t : Nat) : LoopDetector :=
  ⟨if t < 2 then 2 else t⟩

/-- `generateProgressKey`: the canonical string starts as
`type:%v-of-data`, is replaced by `type:file_path` when `data["file_path"]`
is a string, then by `type:command` when `data["command"]` is a string;
the key is the hex of the first 8 bytes of its SHA-256. -/
def generateProgressKey (a : ActionRecord) : String :=
  let keyData := a.actionType ++ ":" ++ mapFmt a.actionData
  let keyData :=
    match a.actionData.lookup "file_path" with
    | some (DataVal.str fp) => a.actionType ++ ":" ++ fp
    | _ => keyData
  let keyData :=
    match a.actionData.lookup "command" with
    | some (DataVal.str c) => a.actionType ++ ":" ++ c
    | _ => keyData
  hexOfBytes ((sha256 (utf8Bytes keyData)).take 8)

/-- `getActionHistory`: `nil` context or empty string give `[]`;
unparseable JSON is an error. -/
def getActionHistory (b : Bead) : Except Unit (List ActionRecord) :=
  match b.context with
  | none => .ok []
  | some c =>
    match c.actionHistory with
    | .empty => .ok []
    | .invalid => .error ()
    | .enc l => .ok l

/-- The successfully parsed history, if any. -/
def okHistory (b : Bead) : Option (List ActionRecord) :=
  match getActionHistory b with
  | .ok l => some l
  | .error _ => none

/-- The metrics as `updateProgressMetrics` reads them: the unmarshal error
is ignored, leaving the zero value. -/
def readMetricsRaw (b : Bead) : ProgressMetrics :=
  match b.context with
  | none => {}
  | some c =>
    match c.progressMetrics with
    | .enc m => m
    | _ => {}

/-- The metrics when stored and valid (used to state claims). -/
def getMetrics (b : Bead) : Option ProgressMetrics :=
  match b.context with
  | none => none
  | some c =>
    match c.progressMetrics with
    | .enc m => some m
    | _ => none

/-- `updateProgressMetrics`: bump the counter for the action's class and,
when one was bumped, set `last_progress = now`. -/
def updateProgressMetrics (now : Int) (b : Bead) (a : ActionRecord) : Bead :=
  let ctx := b.context.getD {}
  let m := readMetricsRaw b
  let (m', progressMade) :=
    if a.actionType = "read_file" ∨ a.actionType = "glob" ∨ a.actionType = "grep" then
      ({ m with filesRead := m.filesRead + 1 }, true)
    else if a.actionType = "edit_file" ∨ a.actionType = "write_file" then
      ({ m with filesModified := m.filesModified + 1 }, true)
    else if a.actionType = "run_tests" ∨ a.actionType = "test" then
      ({ m with testsRun := m.testsRun + 1 }, true)
    else if a.actionType = "bash" ∨ a.actionType = "execute" then
      ({ m with commandsExecuted := m.commandsExecuted + 1 }, true)
    else (m, false)
  let m'' := if progressMade then { m' with lastProgress := now } else m'
  { b with context := some { ctx with progressMetrics := .enc m'' } }

/-- `RecordAction`: stamp the progress key, append to the history (a parse
failure is logged and the history reset), truncate to the most recent 50,
store it back, and update the metrics.  Marshalling is total here, so the
Go error path cannot fire. -/
def RecordAction (now : Int) (_ld : LoopDetector) (b : Bead) (a : ActionRecord) :
    Except String Bead :=
  let ctx := b.context.getD {}
  let a' := { a with progressKey := generateProgressKey a }
  let history :=
    match getActionHistory b with
    | .ok l => l
    | .error _ => []
  let history := history ++ [a']
  let history :=
    if history.length > 50 then history.drop (history.length - 50) else history
  let b' := { b with context := some { ctx with actionHistory := .enc history } }
  .ok (updateProgressMetrics now b' a')

/-- `hasRecentProgress`: valid stored metrics with a nonzero
`last_progress` less than 5 minutes (300 s) old. -/
def hasRecentProgress (now : Int) (b : Bead) : Bool :=
  match b.context with
  | none => false
  | some c =>
    match c.progressMetrics with
    | .enc m =>
      if m.lastProgress = 0 then false else decide (now - m.lastProgress < 300)
    | _ => false

/-- Replace the value of `k` in an association list, or append it: the
effect of `patternCounts[lastKey] = consecutiveCount` on a Go map. -/
def upsert (l : List (String × Nat)) (k : String) (c : Nat) :
    List (String × Nat) :=
  match l with
  | [] => [(k, c)]
  | q :: t => if q.1 = k then (k, c) :: t else q :: upsert t k c

/-- The scanning loop of `findRepeatedPattern`: walk the keys tracking the
current run `(lastKey, count)`, recording a finished run in the map when
its length reaches the threshold. -/
def scanAux (threshold : Nat) :
    List String → String → Nat → List (String × Nat) → List (String × Nat)
  | [], lastKey, count, acc =>
    if threshold ≤ count then upsert acc lastKey count else acc
  | k :: rest, lastKey, count, acc =>
    if k = lastKey then scanAux threshold rest lastKey (count + 1) acc
    else
      scanAux threshold rest k 1
        (if threshold ≤ count then upsert acc lastKey count else acc)

/-- The `patternCounts` map of `findRepeatedPattern`, as an association
list in insertion order. -/
def patternCounts (threshold : Nat) (keys : List String) :
    List (String × Nat) :=
  scanAux threshold keys "" 0 []

/-- The final `maxCount` loop of `findRepeatedPattern`: keep the entry with
the strictly largest count.  Go iterates the map in an unspecified order;
`findRepeatedPattern` below instantiates it with insertion order, and the
theorems about tie-breaking quantify over all permutations. -/
def pickMax (l : List (String × Nat)) : String × Nat :=
  l.foldl (fun best p => if best.2 < p.2 then p else best) ("", 0)

/-- The last-15 window of recorded progress keys examined by
`findRepeatedPattern`. -/
def windowKeys (history : List ActionRecord) : List String :=
  (if history.length > 15 then history.drop (history.length - 15)
   else history).map (·.progressKey)

/-- `findRepeatedPattern`: scan the last 15 keys for maximal runs and
return the pattern with the highest recorded count. -/
def findRepeatedPattern (ld : LoopDetector) (history : List ActionRecord) :
    String × Nat :=
  if history.length < ld.repeatThreshold then ("", 0)
  else pickMax (patternCounts ld.repeatThreshold (windowKeys history))

/-- The stuck-report string. -/
def mkStuckReason (count : Nat) (pattern : String) : String :=
  "Repeated action pattern " ++ toString count ++
    " times without progress: " ++ pattern

/-- `IsStuckInLoop`: short or unparseable history, or recent progress,
give `(false, "")`; otherwise report a repeated pattern reaching the
threshold. -/
def IsStuckInLoop (now : Int) (ld : LoopDetector) (b : Bead) : Bool × String :=
  match getActionHistory b with
  | .error _ => (false, "")
  | .ok history =>
    if history.length < ld.repeatThreshold * 2 then (false, "")
    else if hasRecentProgress now b then (false, "")
    else
      let pc := findRepeatedPattern ld history
      if ld.repeatThreshold ≤ pc.2 then (true, mkStuckReason pc.2 pc.1)
      else (false, "")

/-! ### Specification-side run definitions (from the claims' wording)

These formalise the spec's phrases "run of consecutive identical progress
keys", "the maximal such run", "the most recent qualifying run", to be
compared against `findRepeatedPattern`. -/

/-- Decompose a trailing segment into runs, given the current run
`(key, count)`: spec-side run decomposition helper. -/
def runsAux : List String → String → Nat → List (String × Nat)
  | [], k, c => [(k, c)]
  | x :: rest, k, c =>
    if x = k then runsAux rest k (c + 1) else (k, c) :: runsAux rest x 1

/-- The run decomposition of a key sequence: maximal blocks of consecutive
identical keys, in order, with their lengths. -/
def runs : List String → List (String × Nat)
  | [] => []
  | x :: rest => runsAux rest x 1

/-- The length of the longest run of consecutive identical keys (the
claim's "maximal such run"). -/
def maxRunLen (keys : List String) : Nat :=
  ((runs keys).map (·.2)).foldl max 0

/-- The runs of length at least the threshold ("qualifying" runs). -/
def qualRuns (threshold : Nat) (keys : List String) : List (String × Nat) :=
  (runs keys).filter (fun p => threshold ≤ p.2)

/-- The value held in an association list for `k` after all its entries
were written in order: the last entry with key `k` (0 when absent). -/
def lastVal (l : List (String × Nat)) (k : String) : Nat :=
  match (l.filter (fun p => p.1 = k)).getLast? with
  | some p => p.2
  | none => 0

/-- The length of `k`'s most recent qualifying run in `keys`. -/
def lastQualLen (threshold : Nat) (keys : List String) (k : String) : Nat :=
  match ((runs keys).filter
    (fun p => p.1 = k ∧ threshold ≤ p.2)).getLast? with
  | some p => p.2
  | none => 0

/-- The count the amended claim predicts: the maximum, over keys owning a
qualifying run, of the length of that key's most recent qualifying run. -/
def specN (threshold : Nat) (keys : List String) : Nat :=
  ((qualRuns threshold keys).map
    (fun p => lastQualLen threshold keys p.1)).foldl max 0

/-- The maximal qualifying-run count. -/
def maxQualLen (threshold : Nat) (keys : List String) : Nat :=
  ((qualRuns threshold keys).map (·.2)).foldl max 0

/-- The most recent run among those tying for the maximal qualifying
length (the key the original tie-break claim predicts). -/
def mostRecentMaxRun (threshold : Nat) (keys : List String) :
    Option (String × Nat) :=
  ((qualRuns threshold keys).filter
    (fun p => p.2 = maxQualLen threshold keys)).getLast?

/-- Writing the qualifying runs into the map, in order. -/
def applyUpserts (acc : List (String × Nat)) (ql : List (String × Nat)) :
    List (String × Nat) :=
  ql.foldl (fun ac p => upsert ac p.1 p.2) acc

/-- The keys of an association list. -/
def keysOf (l : List (String × Nat)) : List String := l.map Prod.fst

/-- A record carrying only a progress key (concrete stuck-query inputs:
the query reads nothing else). -/
def keyRec (k : String) : ActionRecord := { progressKey := k }

/-- A bead holding a valid stored history with the given progress keys and
valid metrics with the given `last_progress`. -/
def beadOfKeys (keys : List String) (lastProgress : Int) : Bead :=
  { context := some
      { actionHistory := .enc (keys.map keyRec),
        progressMetrics := .enc { lastProgress := lastProgress } } }

/-- The spec's end-to-end scenario 1: seven identical
`(read_file, test.go)` actions recorded at time 100. -/
def sevenReadBead : Bead :=
  (List.range 7).foldl
    (fun b _ =>
      match RecordAction 100 newLoopDetector b
        { actionType := "read_file",
          actionData := [("file_path", DataVal.str "test.go")] } with
      | .ok b2 => b2
      | .error _ => b)
    {}

/-- The primary target of an action, with the precedence the code
implements: `data.command` when it is a string (the `command` check runs
last and overwrites), else `data.file_path` when it is a string, else the
stable `%v` rendering of the data map. -/
def primaryTarget (a : ActionRecord) : String :=
  match a.actionData.lookup "command" with
  | some (DataVal.str c) => c
  | _ =>
    match a.actionData.lookup "file_path" with
    | some (DataVal.str fp) => fp
    | _ => mapFmt a.actionData

/-- The canonical string hashed into a progress key. -/
def canonicalString (a : ActionRecord) : String :=
  a.actionType ++ ":" ++ primaryTarget a

/-- An action carrying both a `file_path` and a `command` string. -/
def bothFieldsAct : ActionRecord :=
  { actionType := "read_file",
    actionData := [("file_path", DataVal.str "test.go"),
                   ("command", DataVal.str "ls")] }

/-- A `bash` action with a command and extra fields. -/
def bashAct1 : ActionRecord :=
  { actionType := "bash",
    actionData := [("command", DataVal.str "go test"),
                   ("cwd", DataVal.str "/srv")] }

/-- The same `(type, command)` as `bashAct1` with different other
fields. -/
def bashAct2 : ActionRecord :=
  { timestamp := 99, agentID := "agent-2", actionType := "bash",
    actionData := [("command", DataVal.str "go test")],
    resultHash := "deadbeef" }

/-- A fresh bead (`Context` nil). -/
def emptyBead : Bead := {}

/-- A concrete `read_file` action. -/
def readA : ActionRecord :=
  { actionType := "read_file", actionData := [("file_path", DataVal.str "a.go")] }

/-- A bead whose stored `action_history` string is not valid JSON. -/
def corruptBead (idv : String) (pm : JsonStr ProgressMetrics) : Bead :=
  { id := idv,
    context := some { actionHistory := JsonStr.invalid, progressMetrics := pm } }

/-! ## Response cache (`internal/cache/redis.go`)

The `cache` package's `Entry`, `Config` and metadata helpers live in a
file of this repository that is not under `src/`; they are modelled from
the spec (§3 CacheEntry: fingerprint key, response payload, metadata with
provider id / model / total tokens, cached-at, expires-at, hit count,
tokens-saved).  `RedisCache.Set` itself is translated from
`internal/cache/redis.go`. -/

/-- Modelled from the spec: a metadata value
(`map[string]interface{}`). -/
inductive MetaVal where
  | str : String → MetaVal
  | int : Int → MetaVal
  | other : String → MetaVal
deriving DecidableEq

/-- Modelled from the spec: `cache.Entry`.  The opaque response payload is
modelled as a string. -/
structure Entry where
  key : String := ""
  response : String := ""
  metadata : List (String × MetaVal) := []
  cachedAt : Int := 0
  expiresAt : Int := 0
  hits : Nat := 0
  providerID : String := ""
  modelName : String := ""
  tokensSaved : Int := 0
deriving DecidableEq

/-- Modelled from the spec: the slice of `cache.Config` that `Set`
reads. -/
structure CacheConfig where
  enabled : Bool := true
  defaultTTL : Int := 3600
deriving DecidableEq

/-- Modelled from the spec: `getStringFromMap` — a string-typed metadata
field, else `""`. -/
def getStringFromMap (m : List (String × MetaVal)) (k : String) : String :=
  match m.lookup k with
  | some (MetaVal.str s) => s
  | _ => ""

/-- Modelled from the spec: `getInt64FromMap` — an integer metadata
field, else 0. -/
def getInt64FromMap (m : List (String × MetaVal)) (k : String) : Int :=
  match m.lookup k with
  | some (MetaVal.int n) => n
  | _ => 0

/-- A value held by Redis: the marshalled entry and the store-level
expiry deadline set through the client's TTL argument. -/
structure RedisVal where
  value : JsonStr Entry
  expireAt : Int
deriving DecidableEq

/-- The Redis key space. -/
def RedisStore : Type := String → Option RedisVal

/-- `RedisCache.Set`: no-op when the cache is disabled; otherwise build a
fresh entry with `CachedAt = now`, `ExpiresAt = now + ttl` (a zero `ttl`
falls back to the configured default) and store it under `cache:<key>`,
unconditionally replacing whatever the key held. -/
def RedisSet (cfg : CacheConfig) (now : Int) (store : RedisStore)
    (key response : String) (ttl : Int)
    (metadata : List (String × MetaVal)) : RedisStore :=
  if cfg.enabled = false then store
  else
    let ttl2 := if ttl = 0 then cfg.defaultTTL else ttl
    let entry : Entry :=
      { key := key, response := response, metadata := metadata,
        cachedAt := now, expiresAt := now + ttl2, hits := 0,
        providerID := getStringFromMap metadata "provider_id",
        modelName := getStringFromMap metadata "model_name",
        tokensSaved := getInt64FromMap metadata "total_tokens" }
    fun k =>
      if k = "cache:" ++ key then some ⟨JsonStr.enc entry, now + ttl2⟩
      else store k

/-- The unexpired entry sitting in the cache before the conflicting
write. -/
def c5OldEntry : Entry :=
  { key := "k1", response := "old",
    metadata := [("provider_id", MetaVal.str "p1"),
                 ("model_name", MetaVal.str "m1")],
    cachedAt := 0, expiresAt := 1000,
    providerID := "p1", modelName := "m1" }

/-- A store holding only `c5OldEntry` under `cache:k1`. -/
def c5Store0 : RedisStore :=
  fun k => if k = "cache:k1" then some ⟨JsonStr.enc c5OldEntry, 1000⟩ else none

/-! ## Lessons provider (`internal/dispatch/lessons_provider.go`)

The database and embedder are external collaborators; they enter the
model as function parameters (`LessonsDB`, an optional embedding
function).  `float64` relevance scores are modelled as rationals; Go's
`strings.ToUpper` and byte lengths coincide with Lean's on the ASCII
fragment used here. -/

/-- The slice of `models.Lesson` the provider formats. -/
structure Lesson where
  id : String := ""
  projectID : String := ""
  category : String := ""
  title : String := ""
  detail : String := ""
  relevanceScore : ℚ := 1
deriving DecidableEq

/-- The two database calls the provider makes, as supplied functions. -/
structure LessonsDB where
  getLessonsForProject : String → Nat → Nat → Except String (List Lesson)
  searchBySimilarity : String → List ℚ → Int → Except String (List Lesson)

/-- Go `strings.ToUpper` on its ASCII fragment. -/
def asciiUpper (s : String) : String := String.mk (s.data.map Char.toUpper)

/-- One lesson block of `GetLessonsForPrompt`. -/
def fmtPromptLesson (l : Lesson) : String :=
  "### " ++ asciiUpper l.category ++ ": " ++ l.title ++ "\n" ++
    "- " ++ l.detail ++ "\n" ++
    (if l.relevanceScore < (3 / 10 : ℚ)
     then "- (older lesson, may be less relevant)\n" else "") ++ "\n"

/-- `GetLessonsForPrompt`: recency-based retrieval formatted as markdown.
`dbNil` models a nil receiver or nil database. -/
def GetLessonsForPrompt (dbNil : Bool) (db : LessonsDB)
    (projectID : String) : String :=
  if dbNil = true ∨ projectID = "" then ""
  else
    match db.getLessonsForProject projectID 15 4000 with
    | .error _ => ""
    | .ok lessons =>
      if lessons.isEmpty then ""
      else
        "The following lessons were learned from previous work on this project.\n" ++
          "Avoid repeating these mistakes:\n\n" ++
          String.join (lessons.map fmtPromptLesson)

/-- The similarity-result formatting loop of `GetRelevantLessons`:
accumulate blocks, stopping before the block that pushes the running
character total past 2000. -/
def fmtRelevantAux : List Lesson → Nat → String
  | [], _ => ""
  | l :: rest, total =>
    let entry := "### " ++ asciiUpper l.category ++ ": " ++ l.title ++
      "\n- " ++ l.detail ++ "\n\n"
    let total2 := total + entry.length
    if total2 > 2000 then "" else entry ++ fmtRelevantAux rest total2

/-- `GetRelevantLessons`: similarity retrieval with fallback to
`GetLessonsForPrompt` on empty context, missing embedder, embedding
failure or empty embedding, or a similarity-search error — but not on a
successful search returning no lessons. -/
def GetRelevantLessons (dbNil : Bool) (db : LessonsDB)
    (embed : Option (String → Except String (List (List ℚ))))
    (projectID taskContext : String) (topK : Int) : String :=
  if dbNil = true ∨ projectID = "" then ""
  else
    match embed with
    | none => GetLessonsForPrompt dbNil db projectID
    | some em =>
      if taskContext = "" then GetLessonsForPrompt dbNil db projectID
      else
        let k := if topK ≤ 0 then 5 else topK
        match em taskContext with
        | .error _ => GetLessonsForPrompt dbNil db projectID
        | .ok embeddings =>
          match embeddings with
          | [] => GetLessonsForPrompt dbNil db projectID
          | q :: _ =>
            if q.isEmpty then GetLessonsForPrompt dbNil db projectID
            else
              match db.searchBySimilarity projectID q k with
              | .error _ => GetLessonsForPrompt dbNil db projectID
              | .ok lessons =>
                if lessons.isEmpty then ""
                else
                  "The following lessons are relevant to this task.\n" ++
                    "Apply them where appropriate:\n\n" ++
                    fmtRelevantAux lessons 0

/-- A stored lesson for the fallback scenario. -/
def c6Lesson : Lesson :=
  { category := "build_failure", title := "T", detail := "D" }

/-- A database with one lesson whose similarity search finds nothing. -/
def c6DB : LessonsDB :=
  { getLessonsForProject := fun _ _ _ => .ok [c6Lesson],
    searchBySimilarity := fun _ _ _ => .ok [] }

/-- An embedder that always succeeds with a nonempty vector. -/
def c6Embed : String → Except String (List (List ℚ)) :=
  fun _ => .ok [[1]]

/-! ## Hash embedder (`internal/memory`, src/unnamed/part_004)

`float32`/`float64` vector arithmetic is modelled over `ℝ` (exact
arithmetic); the token accumulation phase stays over `ℤ` and is
computable.  Go's `strings.ToLower` and the `unicode` classes are
modelled on their ASCII fragment (`Char.toLower`, `Char.isAlpha`,
`Char.isDigit`), which coincides with Go on the ASCII inputs used
here. -/

/-- FNV-1a, 32 bits (`fnv.New32a`): offset 2166136261, per byte
`h = (h xor b) * 16777619 mod 2^32`. -/
def fnv1a32 (bs : List Nat) : Nat :=
  bs.foldl (fun h b => ((h ^^^ b) * 16777619) % m32) 2166136261

/-- FNV-1, 32 bits (`fnv.New32`): per byte
`h = (h * 16777619 mod 2^32) xor b`. -/
def fnv1_32 (bs : List Nat) : Nat :=
  bs.foldl (fun h b => ((h * 16777619) % m32) ^^^ b) 2166136261

/-- A rune kept inside a token: letter, digit or underscore
(the complement of the `FieldsFunc` separator predicate). -/
def isTokenChar (c : Char) : Bool := c.isAlpha || c.isDigit || c = '_'

/-- `strings.FieldsFunc`: maximal groups of token characters.
`acc` holds the current group in reverse. -/
def fieldsAux (p : Char → Bool) : List Char → List Char → List String
  | [], acc => if acc.isEmpty then [] else [String.mk acc.reverse]
  | c :: rest, acc =>
    if p c then fieldsAux p rest (c :: acc)
    else if acc.isEmpty then fieldsAux p rest []
    else String.mk acc.reverse :: fieldsAux p rest []

/-- The fixed stopword set of the embedder. -/
def stopWords : List String :=
  ["the", "is", "at", "on", "in", "to", "for", "of", "and", "or",
   "an", "it", "be", "as", "do", "by", "so", "if", "no", "up",
   "was", "are", "has", "had", "not", "but", "its", "can", "did", "all",
   "this", "that", "with", "from", "have", "they", "been", "will",
   "were", "than", "what", "when", "each", "which", "their", "said",
   "them", "would", "there", "could"]

/-- `isStopWord`. -/
def isStopWord (w : String) : Bool := stopWords.contains w

/-- `tokenize`: lower-case, split on non-alphanumeric/underscore
boundaries, keep tokens of length ≥ 2 that are not stopwords. -/
def tokenize (text : String) : List String :=
  (fieldsAux isTokenChar (text.data.map Char.toLower) []).filter
    (fun w => 2 ≤ w.length && !isStopWord w)

/-- The bucket a token hashes to: `fnv1a(word) % 256`. -/
def wordIndex (w : String) : Nat := fnv1a32 (utf8Bytes w) % 256

/-- The token's sign: `-1` when `fnv1(word)` is even, else `+1`. -/
def wordSign (w : String) : Int :=
  if fnv1_32 (utf8Bytes w) % 2 = 0 then -1 else 1

/-- Accumulate one token into the 256-bucket integer vector
(`vec[idx] += sign`). -/
def addTok (v : Fin 256 → Int) (w : String) : Fin 256 → Int :=
  fun i => if (i : Nat) = wordIndex w then v i + wordSign w else v i

/-- The integer vector accumulated by `hashEmbed` before L2
normalization. -/
def hashEmbedRaw (text : String) : Fin 256 → Int :=
  (tokenize text).foldl addTok (fun _ => 0)

/-- The sign shared by every token of a bucket (see
`wordSign_eq_bucketSign`). -/
def bucketSign (i : Nat) : Int := if i % 2 = 0 then -1 else 1

/-- Sum of squares of a 256-vector over `ℝ`. -/
noncomputable def l2normSq (v : Fin 256 → ℝ) : ℝ := ∑ i, v i ^ 2

/-- Euclidean norm over `ℝ`. -/
noncomputable def l2norm (v : Fin 256 → ℝ) : ℝ := Real.sqrt (l2normSq v)

/-- `hashEmbed` over `ℝ`: accumulate tokens, then L2-normalize; the
zero vector (no tokens, `norm == 0`) is returned unchanged. -/
noncomputable def hashEmbed (text : String) : Fin 256 → ℝ :=
  let w := hashEmbedRaw text
  if _h : ∀ i, w i = 0 then fun _ => 0
  else fun i => (w i : ℝ) / Real.sqrt (∑ j, ((w j : ℝ)) ^ 2)

/-! ## Embedding blob codec (`EncodeEmbedding` / `DecodeEmbedding`)

A `float32` is identified with its 32-bit pattern (`math.Float32bits` /
`math.Float32frombits` are mutually inverse at the bit level), so
vectors are lists of naturals below `2^32` and the codec is pure byte
shuffling. -/

/-- The four little-endian bytes of one 32-bit word
(`binary.LittleEndian.PutUint32`). -/
def enc4 (w : Nat) : List Nat :=
  [w % 256, (w / 256) % 256, (w / 65536) % 256, (w / 16777216) % 256]

/-- `EncodeEmbedding`: nil for an empty vector, else 4 bytes per
element. -/
def EncodeEmbedding (vec : List Nat) : List Nat :=
  if vec = [] then [] else vec.flatMap enc4

/-- The decoding loop: rebuild one word from each 4-byte group
(`binary.LittleEndian.Uint32`). -/
def decode4 : List Nat → List Nat
  | b0 :: b1 :: b2 :: b3 :: rest =>
    (b0 + 256 * b1 + 65536 * b2 + 16777216 * b3) :: decode4 rest
  | _ => []

/-- `DecodeEmbedding`: nil for empty input or a length not a multiple of
4, else the decoded words. -/
def DecodeEmbedding (data : List Nat) : List Nat :=
  if data.length = 0 ∨ data.length % 4 ≠ 0 then [] else decode4 data

/-! ## SSE streaming reader (`internal/provider/streaming.go`)

The body is a list of scanned lines optionally followed by a scanner
error; chunk JSON decoding and the handler are supplied functions; the
context is a predicate on the iteration index (`ctxDone i` holds when
`ctx.Done()` is closed at the top of iteration `i`) with `ctxErr` the
`ctx.Err()` message. -/

/-- The delta payload of one SSE chunk (fields the claims never
inspect are omitted). -/
structure StreamChunk where
  id : String := ""
  model : String := ""
  content : String := ""
deriving DecidableEq

/-- `strings.HasPrefix`, over character lists. -/
def hasPrefix (p s : String) : Bool := p.data.isPrefixOf s.data

/-- `strings.TrimPrefix` after a successful 6-character prefix check. -/
def dropChars (s : String) (n : Nat) : String := String.mk (s.data.drop n)

/-- The sentinel test: a `data: `-prefixed line whose payload is
`[DONE]`. -/
def isDoneLine (l : String) : Bool :=
  hasPrefix "data: " l && dropChars l 6 = "[DONE]"

/-- A line that produces a chunk: `data: `-prefixed, not the sentinel,
and its payload parses. -/
def chunkLine (parse : String → Option StreamChunk) (l : String) : Bool :=
  hasPrefix "data: " l && dropChars l 6 ≠ "[DONE]" &&
    (parse (dropChars l 6)).isSome

/-- Chunks produced by a prefix of the stream. -/
def countChunks (parse : String → Option StreamChunk)
    (lines : List String) : Nat :=
  (lines.filter (chunkLine parse)).length

/-- The scan loop of `readStreamingResponse`: `i` is the iteration
index, `chunks` the chunks received so far; the list is the remaining
lines and the final `Option String` a scanner error at end of input. -/
def readLoop (parse : String → Option StreamChunk)
    (handler : StreamChunk → Except String Unit)
    (ctxDone : Nat → Bool) (ctxErr : String) :
    Nat → Nat → List String → Option String → Except String Unit
  | _, chunks, [], none =>
    if chunks = 0 then .error "stream ended without receiving any data"
    else .ok ()
  | _, chunks, [], some e =>
    if 0 < chunks then
      .error ("stream connection lost after " ++ toString chunks ++
        " chunks: " ++ e)
    else .error ("stream read error: " ++ e)
  | i, chunks, line :: rest, readErr =>
    if ctxDone i then
      if 0 < chunks then
        .error ("stream interrupted after " ++ toString chunks ++
          " chunks: " ++ ctxErr)
      else .error ctxErr
    else if line = "" || hasPrefix ":" line then
      readLoop parse handler ctxDone ctxErr (i + 1) chunks rest readErr
    else if !(hasPrefix "data: " line) then
      readLoop parse handler ctxDone ctxErr (i + 1) chunks rest readErr
    else if dropChars line 6 = "[DONE]" then .ok ()
    else
      match parse (dropChars line 6) with
      | none => readLoop parse handler ctxDone ctxErr (i + 1) chunks rest readErr
      | some chunk =>
        match handler chunk with
        | .error he =>
          .error ("handler error after " ++ toString (chunks + 1) ++
            " chunks: " ++ he)
        | .ok _ =>
          readLoop parse handler ctxDone ctxErr (i + 1) (chunks + 1) rest readErr

/-- `readStreamingResponse`. -/
def readStreamingResponse (parse : String → Option StreamChunk)
    (handler : StreamChunk → Except String Unit)
    (ctxDone : Nat → Bool) (ctxErr : String)
    (lines : List String) (readErr : Option String) : Except String Unit :=
  readLoop parse handler ctxDone ctxErr 0 0 lines readErr

/-- A context that is never cancelled. -/
def noCancel : Nat → Bool := fun _ => false

/-! ## Theorems -/

/-- Sanity anchor: the FIPS 180-2 test vector for `"abc"`. -/
theorem sha256_abc :
    hexOfBytes (sha256 (utf8Bytes "abc")) =
      "ba7816bf8f01cfea414140de5dae2223b00361a396177a9cb410ff61f20015ad" := by
  decide

theorem scanAux_eq (T : Nat) (rest : List String) :
    ∀ (k : String) (c : Nat) (acc : List (String × Nat)),
      scanAux T rest k c acc =
        applyUpserts acc ((runsAux rest k c).filter (fun p => T ≤ p.2)) := by
  induction rest with
  | nil =>
    intro k c acc
    by_cases h : T ≤ c <;>
      simp [scanAux, runsAux, applyUpserts, h]
  | cons x rest ih =>
    intro k c acc
    by_cases hx : x = k
    · simp [scanAux, runsAux, hx, ih]
    · by_cases h : T ≤ c <;>
        simp [scanAux, runsAux, hx, h, ih, applyUpserts]

theorem patternCounts_eq (T : Nat) (hT : 1 ≤ T) (keys : List String) :
    patternCounts T keys = applyUpserts [] (qualRuns T keys) := by
  cases keys with
  | nil => simp [patternCounts, scanAux, qualRuns, runs, applyUpserts, Nat.not_succ_le_zero,
      show ¬ T ≤ 0 by omega]
  | cons x rest =>
    show scanAux T (x :: rest) "" 0 [] = _
    by_cases hx : x = ""
    · subst hx
      simp [scanAux, scanAux_eq, qualRuns, runs]
    · simp [scanAux, hx, show ¬ T ≤ 0 by omega, scanAux_eq, qualRuns, runs]

theorem mem_upsert {l : List (String × Nat)} (h : (keysOf l).Nodup)
    (k : String) (c : Nat) (q : String × Nat) :
    q ∈ upsert l k c ↔ q = (k, c) ∨ (q ∈ l ∧ q.1 ≠ k) := by
  induction l with
  | nil => simp [upsert]
  | cons p t ih =>
    simp only [keysOf, List.map_cons, List.nodup_cons] at h
    by_cases hp : p.1 = k
    · rw [show upsert (p :: t) k c = (k, c) :: t from by
        simp [upsert, hp]]
      rw [List.mem_cons, List.mem_cons]
      constructor
      · rintro (rfl | hq)
        · exact Or.inl rfl
        · refine Or.inr ⟨Or.inr hq, ?_⟩
          intro hq1
          refine h.1 ?_
          rw [hp, ← hq1]
          exact List.mem_map_of_mem Prod.fst hq
      · rintro (rfl | ⟨rfl | hq, hne⟩)
        · exact Or.inl rfl
        · exact absurd hp hne
        · exact Or.inr hq
    · rw [show upsert (p :: t) k c = p :: upsert t k c from by
        simp [upsert, hp]]
      rw [List.mem_cons, ih h.2, List.mem_cons]
      constructor
      · rintro (rfl | rfl | hq)
        · exact Or.inr ⟨Or.inl rfl, hp⟩
        · exact Or.inl rfl
        · exact Or.inr ⟨Or.inr hq.1, hq.2⟩
      · rintro (rfl | ⟨rfl | hq, hne⟩)
        · exact Or.inr (Or.inl rfl)
        · exact Or.inl rfl
        · exact Or.inr (Or.inr ⟨hq, hne⟩)

theorem keysOf_upsert_nodup {l : List (String × Nat)} (h : (keysOf l).Nodup)
    (k : String) (c : Nat) : (keysOf (upsert l k c)).Nodup := by
  induction l with
  | nil => simp [upsert, keysOf]
  | cons p t ih =>
    simp only [keysOf, List.map_cons, List.nodup_cons] at h
    by_cases hp : p.1 = k
    · subst hp
      simpa [upsert, keysOf] using h
    · refine ?_
      have ht := ih h.2
      simp only [upsert, if_neg hp, keysOf, List.map_cons, List.nodup_cons]
      refine ⟨?_, ht⟩
      intro hmem
      have : ∃ q ∈ upsert t k c, q.1 = p.1 := by
        simpa [keysOf, List.mem_map, eq_comm] using hmem
      obtain ⟨q, hq, hq1⟩ := this
      rcases (mem_upsert h.2 k c q).mp hq with rfl | ⟨hq', _⟩
      · exact hp hq1.symm
      · exact h.1 (hq1 ▸ List.mem_map_of_mem Prod.fst hq')

theorem applyUpserts_append (acc : List (String × Nat))
    (ql : List (String × Nat)) (p : String × Nat) :
    applyUpserts acc (ql ++ [p]) = upsert (applyUpserts acc ql) p.1 p.2 := by
  simp [applyUpserts, List.foldl_append]

theorem keysOf_applyUpserts_nodup (ql : List (String × Nat)) :
    (keysOf (applyUpserts [] ql)).Nodup := by
  induction ql using List.reverseRecOn with
  | nil => simp [applyUpserts, keysOf]
  | append_singleton ql p ih =>
    rw [applyUpserts_append]
    exact keysOf_upsert_nodup ih p.1 p.2

theorem lastVal_append (ql : List (String × Nat)) (p : String × Nat)
    (k : String) :
    lastVal (ql ++ [p]) k = if p.1 = k then p.2 else lastVal ql k := by
  unfold lastVal
  rw [List.filter_append]
  by_cases hp : p.1 = k
  · simp [hp]
  · simp [hp]

theorem mem_applyUpserts (ql : List (String × Nat)) :
    ∀ q ∈ applyUpserts [] ql, q.2 = lastVal ql q.1 ∧ q.1 ∈ keysOf ql := by
  induction ql using List.reverseRecOn with
  | nil => simp [applyUpserts]
  | append_singleton ql p ih =>
    intro q hq
    rw [applyUpserts_append] at hq
    rcases (mem_upsert (keysOf_applyUpserts_nodup ql) p.1 p.2 q).mp hq with
      rfl | ⟨hq', hne⟩
    · constructor
      · simp [lastVal_append]
      · simp [keysOf]
    · obtain ⟨hval, hk⟩ := ih q hq'
      constructor
      · rw [lastVal_append, if_neg (by intro h; exact hne h.symm)]
        exact hval
      · simp only [keysOf, List.map_append]
        exact List.mem_append_left _ hk

theorem keys_mem_applyUpserts (ql : List (String × Nat)) :
    ∀ k ∈ keysOf ql, (k, lastVal ql k) ∈ applyUpserts [] ql := by
  induction ql using List.reverseRecOn with
  | nil => simp [keysOf]
  | append_singleton ql p ih =>
    intro k hk
    rw [applyUpserts_append]
    rw [mem_upsert (keysOf_applyUpserts_nodup ql) p.1 p.2]
    by_cases hp : p.1 = k
    · left
      rw [lastVal_append, if_pos hp, hp]
    · right
      simp only [keysOf, List.map_append, List.mem_append] at hk
      rcases hk with hk | hk
      · refine ⟨?_, ?_⟩
        · rw [lastVal_append, if_neg hp]
          exact ih k hk
        · simpa using fun h => hp h.symm
      · simp only [List.map_cons, List.map_nil, List.mem_singleton] at hk
        exact absurd hk.symm hp

/-! ### Lemmas: the max-count selection -/

theorem pickMax_foldl_snd (l : List (String × Nat)) :
    ∀ b : String × Nat,
      (l.foldl (fun best p => if best.2 < p.2 then p else best) b).2 =
        (l.map (·.2)).foldl max b.2 := by
  induction l with
  | nil => intro b; rfl
  | cons p t ih =>
    intro b
    simp only [List.foldl_cons, List.map_cons, ih]
    congr 1
    by_cases h : b.2 < p.2
    · simp [h, Nat.max_eq_right (Nat.le_of_lt h)]
    · simp [h, Nat.max_eq_left (Nat.le_of_not_lt h)]

theorem pickMax_foldl_mem (l : List (String × Nat)) :
    ∀ b : String × Nat,
      l.foldl (fun best p => if best.2 < p.2 then p else best) b = b ∨
        l.foldl (fun best p => if best.2 < p.2 then p else best) b ∈ l := by
  induction l with
  | nil => intro b; exact Or.inl rfl
  | cons p t ih =>
    intro b
    simp only [List.foldl_cons]
    rcases ih (if b.2 < p.2 then p else b) with h | h
    · by_cases hb : b.2 < p.2
      · exact Or.inr (by rw [h, if_pos hb]; exact List.mem_cons_self p t)
      · exact Or.inl (by rw [h, if_neg hb])
    · exact Or.inr (List.mem_cons_of_mem p h)

theorem le_foldl_max_init {l : List Nat} : ∀ a : Nat, a ≤ l.foldl max a := by
  induction l with
  | nil => intro a; exact Nat.le_refl a
  | cons x t ih =>
    intro a
    exact Nat.le_trans (Nat.le_max_left a x) (ih (max a x))

theorem le_foldl_max_of_mem {l : List Nat} {x : Nat} (hx : x ∈ l) :
    ∀ a : Nat, x ≤ l.foldl max a := by
  induction l with
  | nil => cases hx
  | cons y t ih =>
    intro a
    rcases List.mem_cons.mp hx with rfl | hx'
    · exact Nat.le_trans (Nat.le_max_right a x) (le_foldl_max_init (max a x))
    · exact ih hx' (max a y)

theorem foldl_max_le {l : List Nat} {a m : Nat} (ha : a ≤ m)
    (hl : ∀ x ∈ l, x ≤ m) : l.foldl max a ≤ m := by
  induction l generalizing a with
  | nil => exact ha
  | cons x t ih =>
    refine ih (Nat.max_le.mpr ⟨ha, hl x (List.mem_cons_self x t)⟩)
      (fun y hy => hl y (List.mem_cons_of_mem x hy))

/-- The maximum value stored in the map equals the maximum, over the keys
written, of the last value written for that key. -/
theorem maxSnd_applyUpserts (ql : List (String × Nat)) :
    ((applyUpserts [] ql).map (·.2)).foldl max 0 =
      (ql.map (fun p => lastVal ql p.1)).foldl max 0 := by
  apply Nat.le_antisymm
  · refine foldl_max_le (Nat.zero_le _) ?_
    intro x hx
    obtain ⟨q, hq, rfl⟩ := List.mem_map.mp hx
    obtain ⟨hval, hk⟩ := mem_applyUpserts ql q hq
    obtain ⟨p, hp, hp1⟩ := List.mem_map.mp hk
    rw [hval, ← hp1]
    have hmem : lastVal ql p.1 ∈ ql.map (fun r => lastVal ql r.1) :=
      List.mem_map_of_mem (fun r => lastVal ql r.1) hp
    exact le_foldl_max_of_mem hmem 0
  · refine foldl_max_le (Nat.zero_le _) ?_
    intro x hx
    obtain ⟨p, hp, rfl⟩ := List.mem_map.mp hx
    have hmem := keys_mem_applyUpserts ql p.1 (List.mem_map_of_mem Prod.fst hp)
    have hmem2 : lastVal ql p.1 ∈ (applyUpserts [] ql).map (·.2) :=
      List.mem_map_of_mem (·.2) hmem
    exact le_foldl_max_of_mem hmem2 0

/-- `lastQualLen` reads the last value among the qualifying runs. -/
theorem lastQualLen_eq_lastVal (T : Nat) (keys : List String) (k : String) :
    lastQualLen T keys k = lastVal (qualRuns T keys) k := by
  unfold lastQualLen lastVal qualRuns
  rw [List.filter_filter]
  congr 2
  apply List.filter_congr
  intro p _
  by_cases h1 : p.1 = k <;> by_cases h2 : T ≤ p.2 <;> simp [h1, h2]

/-- Every value stored in the map is the length of a qualifying run, hence
at least the threshold. -/
theorem lastVal_qualRuns_ge (T : Nat) (keys : List String) (k : String)
    (hk : k ∈ keysOf (qualRuns T keys)) :
    T ≤ lastVal (qualRuns T keys) k := by
  unfold lastVal
  obtain ⟨p, hp, hp1⟩ := List.mem_map.mp hk
  cases hq : ((qualRuns T keys).filter (fun q => q.1 = k)).getLast? with
  | none =>
    rw [List.getLast?_eq_none_iff] at hq
    have := List.filter_eq_nil_iff.mp hq p hp
    simp [hp1] at this
  | some q =>
    have hx : q ∈ ((qualRuns T keys).filter (fun q => q.1 = k)).getLast? := by
      rw [hq]; rfl
    obtain ⟨hne, hqe⟩ := List.mem_getLast?_eq_getLast hx
    have hqm : q ∈ (qualRuns T keys).filter (fun q => q.1 = k) :=
      hqe ▸ List.getLast_mem hne
    have hq2 := (List.mem_filter.mp (List.mem_filter.mp hqm).1).2
    simpa using hq2

/-- The count computed by `findRepeatedPattern` is the amended claim's
`specN`: the maximum over keys of the last qualifying run length. -/
theorem findRepeatedPattern_snd (ld : LoopDetector)
    (hT : 1 ≤ ld.repeatThreshold) (history : List ActionRecord)
    (hlen : ld.repeatThreshold ≤ history.length) :
    (findRepeatedPattern ld history).2 =
      specN ld.repeatThreshold (windowKeys history) := by
  unfold findRepeatedPattern
  rw [if_neg (by omega)]
  show (pickMax (patternCounts ld.repeatThreshold (windowKeys history))).2 = _
  rw [pickMax, pickMax_foldl_snd,
    patternCounts_eq ld.repeatThreshold hT (windowKeys history),
    maxSnd_applyUpserts]
  simp only [specN, lastQualLen_eq_lastVal]

/-- A qualifying run pushes `specN` to at least the threshold. -/
theorem specN_ge (T : Nat) (w : List String) (p : String × Nat)
    (hp : p ∈ runs w) (hp2 : T ≤ p.2) : T ≤ specN T w := by
  have hpq : p ∈ qualRuns T w :=
    List.mem_filter.mpr ⟨hp, by simpa using hp2⟩
  have hk : p.1 ∈ keysOf (qualRuns T w) := List.mem_map_of_mem Prod.fst hpq
  have h1 : T ≤ lastVal (qualRuns T w) p.1 := lastVal_qualRuns_ge T w p.1 hk
  have h2 : lastQualLen T w p.1 ∈
      (qualRuns T w).map (fun q => lastQualLen T w q.1) :=
    List.mem_map_of_mem (fun q => lastQualLen T w q.1) hpq
  have h3 := le_foldl_max_of_mem h2 0
  rw [← lastQualLen_eq_lastVal] at h1
  exact Nat.le_trans h1 (by simpa [specN] using h3)

/-- Without any qualifying run the map stays empty. -/
theorem qualRuns_eq_nil (T : Nat) (w : List String)
    (h : ∀ p ∈ runs w, ¬ T ≤ p.2) : qualRuns T w = [] := by
  unfold qualRuns
  rw [List.filter_eq_nil_iff]
  intro p hp
  simpa using h p hp

/-- Claim C1 (amended).  The stuck query returns `(false, "")` when the
parsed history has fewer than `2 × repeat_threshold` entries, and when the
stored metrics show `now − last_progress < 5` minutes; otherwise, when the
last 15 recorded keys contain a run of at least `repeat_threshold`
consecutive identical progress keys, it returns
`(true, "Repeated action pattern N times without progress: <key>")` where
`N` is the maximum, over keys, of the length of that key's most recent
qualifying run in the window. -/
theorem claim_C1_amended (ld : LoopDetector) (now : Int) (b : Bead)
    (hT : 2 ≤ ld.repeatThreshold) :
    (∀ l, getActionHistory b = Except.ok l →
        l.length < 2 * ld.repeatThreshold →
        IsStuckInLoop now ld b = (false, "")) ∧
    (∀ m, getMetrics b = some m → m.lastProgress ≠ 0 →
        now - m.lastProgress < 300 →
        IsStuckInLoop now ld b = (false, "")) ∧
    (∀ l, getActionHistory b = Except.ok l →
        2 * ld.repeatThreshold ≤ l.length →
        hasRecentProgress now b = false →
        (∃ p ∈ runs (windowKeys l), ld.repeatThreshold ≤ p.2) →
        ∃ k, IsStuckInLoop now ld b =
          (true, mkStuckReason
            (specN ld.repeatThreshold (windowKeys l)) k)) := by
  refine ⟨?_, ?_, ?_⟩
  · intro l hok hlen
    unfold IsStuckInLoop
    rw [hok]
    simp only []
    rw [if_pos (by omega)]
  · intro m hm hm0 hlt
    have hrp : hasRecentProgress now b = true := by
      unfold getMetrics at hm
      cases hctx : b.context with
      | none => simp [hctx] at hm
      | some c =>
        cases hpm : c.progressMetrics with
        | empty => simp [hctx, hpm] at hm
        | invalid => simp [hctx, hpm] at hm
        | enc m2 =>
          simp only [hctx, hpm, Option.some.injEq] at hm
          subst hm
          simp [hasRecentProgress, hctx, hpm, hm0, hlt]
    unfold IsStuckInLoop
    cases hga : getActionHistory b with
    | error e => rfl
    | ok l => simp [hrp]
  · intro l hok hlen hrec hq
    obtain ⟨p, hp, hp2⟩ := hq
    have hT1 : 1 ≤ ld.repeatThreshold := by omega
    have hlen1 : ld.repeatThreshold ≤ l.length := by omega
    have hsnd := findRepeatedPattern_snd ld hT1 l hlen1
    have hgate : ld.repeatThreshold ≤ (findRepeatedPattern ld l).2 := by
      rw [hsnd]
      exact specN_ge ld.repeatThreshold (windowKeys l) p hp hp2
    refine ⟨(findRepeatedPattern ld l).1, ?_⟩
    unfold IsStuckInLoop
    rw [hok]
    simp only []
    rw [if_neg (by omega), if_neg (by simp [hrec]), if_pos hgate, hsnd]

/-- Claim C1 counterexample.  With stored keys
`a a a a b a a a` (runs `a×4`, `b×1`, `a×3`), stale metrics and the default
threshold 3, the code reports `N = 3` — the length of the most recent
qualifying `a`-run, which overwrote the `a×4` entry in the pattern map —
while the maximal run of consecutive identical keys in the window has
length 4, so the claim's `N` is wrong. -/
theorem claim_C1_counterexample :
    IsStuckInLoop 601 newLoopDetector
        (beadOfKeys ["a", "a", "a", "a", "b", "a", "a", "a"] 1) =
      (true, mkStuckReason 3 "a") ∧
    maxRunLen (windowKeys
        ((["a", "a", "a", "a", "b", "a", "a", "a"]).map keyRec)) = 4 ∧
    mkStuckReason 3 "a" ≠ mkStuckReason 4 "a" := by
  refine ⟨by decide, by decide, by decide⟩

/-- Claim C1 witness: the spec's scenario 1 (seven identical
`(read_file, test.go)` actions, progress backdated 10 minutes,
threshold 3) instantiates the amended claim and reports the run of 7. -/
theorem claim_C1_witness :
    ∃ k, IsStuckInLoop 700 newLoopDetector sevenReadBead =
      (true, mkStuckReason
        (specN 3 (windowKeys ((okHistory sevenReadBead).getD []))) k) :=
  (claim_C1_amended newLoopDetector 700 sevenReadBead (by decide)).2.2
    ((okHistory sevenReadBead).getD [])
    (by rfl) (by decide) (by decide)
    ⟨("4678e4c9b9f231d1", 7), by decide, by decide⟩

/-- The selected entry is in the map whenever its count is positive. -/
theorem pickMax_mem (l : List (String × Nat)) (h : 0 < (pickMax l).2) :
    pickMax l ∈ l := by
  rcases pickMax_foldl_mem l ("", 0) with he | hm
  · simp [pickMax, he] at h
  · simpa [pickMax] using hm

/-- `foldl max 0` only depends on the multiset of entries. -/
theorem foldl_max_perm {l1 l2 : List Nat} (h : l1.Perm l2) :
    l1.foldl max 0 = l2.foldl max 0 :=
  Nat.le_antisymm
    (foldl_max_le (Nat.zero_le _)
      fun _ hx => le_foldl_max_of_mem (h.mem_iff.mp hx) 0)
    (foldl_max_le (Nat.zero_le _)
      fun _ hx => le_foldl_max_of_mem (h.mem_iff.mpr hx) 0)

/-- Claim C3 (amended).  When the stuck query fires, the reported key is
one of the keys recorded in the pattern map with the maximal count (which
key is reported depends on Go's unspecified map iteration order), and the
reported count is that maximum, which is the same under every iteration
order of the map. -/
theorem claim_C3_amended (ld : LoopDetector) (now : Int) (b : Bead)
    (l : List ActionRecord) (hT : 2 ≤ ld.repeatThreshold)
    (hok : getActionHistory b = Except.ok l)
    (hlen : 2 * ld.repeatThreshold ≤ l.length)
    (hrec : hasRecentProgress now b = false)
    (hq : ∃ p ∈ runs (windowKeys l), ld.repeatThreshold ≤ p.2) :
    ∃ k c, IsStuckInLoop now ld b = (true, mkStuckReason c k) ∧
      c = specN ld.repeatThreshold (windowKeys l) ∧
      (k, c) ∈ patternCounts ld.repeatThreshold (windowKeys l) ∧
      ∀ l2, l2.Perm (patternCounts ld.repeatThreshold (windowKeys l)) →
        (pickMax l2).2 = c := by
  obtain ⟨p, hp, hp2⟩ := hq
  have hT1 : 1 ≤ ld.repeatThreshold := by omega
  have hlen1 : ld.repeatThreshold ≤ l.length := by omega
  have hsnd := findRepeatedPattern_snd ld hT1 l hlen1
  have hgate : ld.repeatThreshold ≤ (findRepeatedPattern ld l).2 := by
    rw [hsnd]
    exact specN_ge ld.repeatThreshold (windowKeys l) p hp hp2
  have hfr : findRepeatedPattern ld l =
      pickMax (patternCounts ld.repeatThreshold (windowKeys l)) := by
    unfold findRepeatedPattern
    rw [if_neg (by omega)]
  refine ⟨(findRepeatedPattern ld l).1, (findRepeatedPattern ld l).2,
    ?_, hsnd, ?_, ?_⟩
  · unfold IsStuckInLoop
    rw [hok]
    simp only []
    rw [if_neg (by omega), if_neg (by simp [hrec]), if_pos hgate]
  · have hm := pickMax_mem (patternCounts ld.repeatThreshold (windowKeys l))
      (by rw [← hfr]; omega)
    rw [hfr]
    simpa using hm
  · intro l2 hperm
    rw [hfr, pickMax, pickMax, pickMax_foldl_snd, pickMax_foldl_snd]
    exact foldl_max_perm (hperm.map (·.2))

/-- Claim C3 counterexample.  With stored keys `a a a b b b` the runs
`a×3` and `b×3` tie at the default threshold 3; the most recent tied run
belongs to `b`, yet the query (iterating the map in insertion order, one
of Go's admissible orders) reports `a`. -/
theorem claim_C3_counterexample :
    IsStuckInLoop 601 newLoopDetector
        (beadOfKeys ["a", "a", "a", "b", "b", "b"] 1) =
      (true, mkStuckReason 3 "a") ∧
    mostRecentMaxRun 3 (windowKeys
        ((["a", "a", "a", "b", "b", "b"]).map keyRec)) = some ("b", 3) ∧
    "a" ≠ "b" := by
  refine ⟨by decide, by decide, by decide⟩

/-- Claim C3 witness: the tied two-run bead instantiates the amended
claim. -/
theorem claim_C3_witness :
    ∃ k c, IsStuckInLoop 601 newLoopDetector
        (beadOfKeys ["a", "a", "a", "b", "b", "b"] 1) =
        (true, mkStuckReason c k) ∧
      c = specN 3 (windowKeys ((["a", "a", "a", "b", "b", "b"]).map keyRec)) ∧
      (k, c) ∈ patternCounts 3 (windowKeys
        ((["a", "a", "a", "b", "b", "b"]).map keyRec)) ∧
      ∀ l2, l2.Perm (patternCounts 3 (windowKeys
          ((["a", "a", "a", "b", "b", "b"]).map keyRec))) →
        (pickMax l2).2 = c :=
  claim_C3_amended newLoopDetector 601
    (beadOfKeys ["a", "a", "a", "b", "b", "b"] 1)
    ((["a", "a", "a", "b", "b", "b"]).map keyRec)
    (by decide) (by rfl) (by decide) (by decide)
    ⟨("a", 3), by decide, by decide⟩

/-- Closed form of `RecordAction`: it always succeeds, storing the
truncated appended history and the updated metrics. -/
theorem recordAction_eq (now : Int) (ld : LoopDetector) (b : Bead)
    (a : ActionRecord) :
    RecordAction now ld b a = Except.ok (updateProgressMetrics now
      { b with context := some { (b.context.getD {}) with
          actionHistory := JsonStr.enc
            (let nh := (okHistory b).getD [] ++
              [{ a with progressKey := generateProgressKey a }]
             if nh.length > 50 then nh.drop (nh.length - 50) else nh) } }
      { a with progressKey := generateProgressKey a }) := by
  cases hctx : b.context with
  | none => simp [RecordAction, getActionHistory, okHistory, hctx]
  | some c =>
    cases hah : c.actionHistory with
    | empty => simp [RecordAction, getActionHistory, okHistory, hctx, hah]
    | invalid => simp [RecordAction, getActionHistory, okHistory, hctx, hah]
    | enc l => simp [RecordAction, getActionHistory, okHistory, hctx, hah]

/-- `updateProgressMetrics` does not touch the stored history. -/
theorem okHistory_updateProgressMetrics (now : Int) (b : Bead)
    (a : ActionRecord) (c : BeadContext) (h : b.context = some c) :
    okHistory (updateProgressMetrics now b a) =
      match c.actionHistory with
      | JsonStr.empty => some []
      | JsonStr.invalid => none
      | JsonStr.enc l => some l := by
  cases hah : c.actionHistory <;>
    simp [updateProgressMetrics, okHistory, getActionHistory, h, hah]

/-- `readMetricsRaw` only looks at the stored metrics string. -/
theorem readMetricsRaw_eq (b : Bead) :
    readMetricsRaw b =
      match (b.context.getD {}).progressMetrics with
      | JsonStr.enc m => m
      | _ => {} := by
  rcases b with ⟨i, _ | c⟩ <;> rfl

/-- Overwriting the stored history leaves the metrics unchanged. -/
theorem readMetricsRaw_setHistory (b : Bead) (x : JsonStr (List ActionRecord)) :
    readMetricsRaw { b with context := some {
        (b.context.getD {}) with actionHistory := x } } =
      readMetricsRaw b := by
  rcases b with ⟨i, _ | c⟩ <;> rfl

/-- Claim C4.  After every `RecordAction` the call succeeds, the stored
history is a suffix of the old parsed history extended by the recorded
action (the action stamped with its progress key), ends with that action,
and keeps exactly the most recent `min (n+1) 50` entries; the progress
counter matching the action's class is incremented, the other counters
are untouched, and `last_progress` is set to `now` exactly when a counter
was incremented. -/
theorem claim_C4_record_invariants (now : Int) (ld : LoopDetector)
    (b : Bead) (a : ActionRecord) :
    ∃ b2, RecordAction now ld b a = Except.ok b2 ∧
      (∃ h2, okHistory b2 = some h2 ∧
        h2.getLast? = some { a with progressKey := generateProgressKey a } ∧
        h2.length ≤ 50 ∧
        h2.length =
          min ((okHistory b).getD [] ++
            [{ a with progressKey := generateProgressKey a }]).length 50 ∧
        h2 <:+ (okHistory b).getD [] ++
          [{ a with progressKey := generateProgressKey a }]) ∧
      ((a.actionType = "read_file" ∨ a.actionType = "glob" ∨
          a.actionType = "grep" →
        readMetricsRaw b2 = { readMetricsRaw b with
          filesRead := (readMetricsRaw b).filesRead + 1,
          lastProgress := now }) ∧
       (a.actionType = "edit_file" ∨ a.actionType = "write_file" →
        readMetricsRaw b2 = { readMetricsRaw b with
          filesModified := (readMetricsRaw b).filesModified + 1,
          lastProgress := now }) ∧
       (a.actionType = "run_tests" ∨ a.actionType = "test" →
        readMetricsRaw b2 = { readMetricsRaw b with
          testsRun := (readMetricsRaw b).testsRun + 1,
          lastProgress := now }) ∧
       (a.actionType = "bash" ∨ a.actionType = "execute" →
        readMetricsRaw b2 = { readMetricsRaw b with
          commandsExecuted := (readMetricsRaw b).commandsExecuted + 1,
          lastProgress := now }) ∧
       (a.actionType ∉ (["read_file", "glob", "grep", "edit_file",
          "write_file", "run_tests", "test", "bash", "execute"] :
            List String) →
        readMetricsRaw b2 = readMetricsRaw b)) := by
  refine ⟨_, recordAction_eq now ld b a, ?_, ?_⟩
  · set a2 := { a with progressKey := generateProgressKey a } with ha2
    set nh := (okHistory b).getD [] ++ [a2] with hnh
    set h2 := if nh.length > 50 then nh.drop (nh.length - 50) else nh with hh2
    refine ⟨h2, ?_, ?_, ?_, ?_, ?_⟩
    · rw [okHistory_updateProgressMetrics now _ a2 _ rfl]
    · have hlnh : nh.length = ((okHistory b).getD []).length + 1 := by
        rw [hnh]; simp
      rw [hh2]
      split
      · next hgt =>
        have hle : nh.length - 50 ≤ ((okHistory b).getD []).length := by
          omega
        rw [hnh, List.drop_append_of_le_length hle, List.getLast?_concat]
      · rw [hnh, List.getLast?_concat]
    · rw [hh2]; split <;> (try simp only [List.length_drop]) <;> omega
    · rw [hh2]; split <;> (try simp only [List.length_drop]) <;> omega
    · rw [hh2]; split
      · exact List.drop_suffix _ _
      · exact List.suffix_refl _
  · refine ⟨?_, ?_, ?_, ?_, ?_⟩ <;> intro hty
    · rcases hty with h | h | h <;>
        simp [updateProgressMetrics, readMetricsRaw_eq,
          readMetricsRaw_setHistory, h]
    · rcases hty with h | h <;>
        simp [updateProgressMetrics, readMetricsRaw_eq,
          readMetricsRaw_setHistory, h]
    · rcases hty with h | h <;>
        simp [updateProgressMetrics, readMetricsRaw_eq,
          readMetricsRaw_setHistory, h]
    · rcases hty with h | h <;>
        simp [updateProgressMetrics, readMetricsRaw_eq,
          readMetricsRaw_setHistory, h]
    · simp only [List.mem_cons, List.mem_singleton, not_or] at hty
      obtain ⟨h1, h2, h3, h4, h5, h6, h7, h8, h9⟩ := hty
      simp [updateProgressMetrics, readMetricsRaw_eq,
        readMetricsRaw_setHistory, h1, h2, h3, h4, h5, h6, h7, h8, h9]

/-- Claim C4 witness: a concrete `read_file` record on an empty bead. -/
theorem claim_C4_witness :
    ∃ b2, RecordAction 7 newLoopDetector emptyBead readA = Except.ok b2 ∧
      (∃ h2, okHistory b2 = some h2 ∧
        h2.getLast? =
          some { readA with progressKey := generateProgressKey readA } ∧
        h2.length ≤ 50) ∧
      readMetricsRaw b2 = { filesRead := 1, lastProgress := 7 } := by
  obtain ⟨b2, hok, ⟨h2, hh, hlast, hle, _, _⟩, hcls, _⟩ :=
    claim_C4_record_invariants 7 newLoopDetector emptyBead readA
  refine ⟨b2, hok, ⟨h2, hh, hlast, hle⟩, ?_⟩
  have hx := hcls (Or.inl rfl)
  rw [hx]
  rfl

/-- Claim C10.  A bead whose stored `action_history` is not valid JSON:
`RecordAction` swallows the parse failure, records the action as a fresh
one-element history and returns no error, and `IsStuckInLoop` returns
`(false, "")`. -/
theorem claim_C10_corrupt_history (now : Int) (ld : LoopDetector)
    (pm : JsonStr ProgressMetrics) (idv : String) (a : ActionRecord) :
    (∃ b2, RecordAction now ld (corruptBead idv pm) a = Except.ok b2 ∧
      okHistory b2 =
        some [{ a with progressKey := generateProgressKey a }]) ∧
    IsStuckInLoop now ld (corruptBead idv pm) = (false, "") := by
  constructor
  · refine ⟨_, recordAction_eq now ld _ a, ?_⟩
    rw [okHistory_updateProgressMetrics now _ _ _ rfl]
    simp [okHistory, getActionHistory, corruptBead]
  · rfl

/-- Claim C2 (amended).  Every progress key is the hex encoding of the
first 8 bytes of the SHA-256 of `type + ":" + primary_target`, where the
primary target is chosen in priority order `data.command`, else
`data.file_path`, else a stable serialization of `data`; consequently two
actions with identical `(type, primary target)` always receive equal keys
regardless of other fields. -/
theorem claim_C2_amended :
    (∀ a : ActionRecord, generateProgressKey a =
      hexOfBytes ((sha256 (utf8Bytes (canonicalString a))).take 8)) ∧
    (∀ a b : ActionRecord, a.actionType = b.actionType →
      primaryTarget a = primaryTarget b →
      generateProgressKey a = generateProgressKey b) := by
  have hmain : ∀ a : ActionRecord, generateProgressKey a =
      hexOfBytes ((sha256 (utf8Bytes (canonicalString a))).take 8) := by
    intro a
    unfold generateProgressKey canonicalString primaryTarget
    cases hc : a.actionData.lookup "command" with
    | none =>
      cases hf : a.actionData.lookup "file_path" with
      | none => rfl
      | some v => cases v <;> rfl
    | some v =>
      cases v with
      | str c =>
        cases hf : a.actionData.lookup "file_path" with
        | none => rfl
        | some w => cases w <;> rfl
      | other r =>
        cases hf : a.actionData.lookup "file_path" with
        | none => rfl
        | some w => cases w <;> rfl
  refine ⟨hmain, ?_⟩
  intro a b hty htg
  rw [hmain a, hmain b]
  unfold canonicalString
  rw [hty, htg]

/-- Claim C2 counterexample.  For an action carrying both a `file_path`
and a `command` string the key is derived from the command (the
`command` branch overwrites the `file_path` branch), not from the file
path as the claim states. -/
theorem claim_C2_counterexample :
    generateProgressKey bothFieldsAct =
      hexOfBytes ((sha256 (utf8Bytes "read_file:ls")).take 8) ∧
    generateProgressKey bothFieldsAct ≠
      hexOfBytes ((sha256 (utf8Bytes "read_file:test.go")).take 8) := by
  refine ⟨by decide, by decide⟩

/-- Claim C2 witness: the hash formula at a concrete action, and equal
keys for two `bash` actions sharing the command but differing in every
other field. -/
theorem claim_C2_witness :
    generateProgressKey bashAct1 =
      hexOfBytes ((sha256 (utf8Bytes (canonicalString bashAct1))).take 8) ∧
    generateProgressKey bashAct1 = generateProgressKey bashAct2 :=
  ⟨claim_C2_amended.1 bashAct1,
   claim_C2_amended.2 bashAct1 bashAct2 (by decide) (by decide)⟩

/-- Claim C5 (amended).  With the cache enabled, `Set` unconditionally
stores a fresh entry under `cache:<key>` — whatever entry, expired or
not, whatever its provider and model, the key previously held — with
`cached_at = now` and `expires_at = now + ttl` (zero `ttl` replaced by
the configured default), leaving every other key untouched; hence every
overwrite refreshes `cached_at`.  `Set` has no refusal path and no
refresh flag. -/
theorem claim_C5_amended (cfg : CacheConfig) (hcfg : cfg.enabled = true)
    (now : Int) (store : RedisStore) (key response : String) (ttl : Int)
    (metadata : List (String × MetaVal)) :
    ∃ e : Entry,
      RedisSet cfg now store key response ttl metadata ("cache:" ++ key) =
        some ⟨JsonStr.enc e, e.expiresAt⟩ ∧
      e.cachedAt = now ∧
      e.expiresAt = now + (if ttl = 0 then cfg.defaultTTL else ttl) ∧
      e.providerID = getStringFromMap metadata "provider_id" ∧
      e.modelName = getStringFromMap metadata "model_name" ∧
      e.tokensSaved = getInt64FromMap metadata "total_tokens" ∧
      ∀ k2, k2 ≠ "cache:" ++ key →
        RedisSet cfg now store key response ttl metadata k2 = store k2 := by
  refine ⟨({ key := key, response := response, metadata := metadata,
             cachedAt := now,
             expiresAt := now + (if ttl = 0 then cfg.defaultTTL else ttl),
             hits := 0,
             providerID := getStringFromMap metadata "provider_id",
             modelName := getStringFromMap metadata "model_name",
             tokensSaved := getInt64FromMap metadata "total_tokens" } : Entry),
    ?_, rfl, rfl, rfl, rfl, rfl, ?_⟩
  · unfold RedisSet
    rw [hcfg]
    simp
  · intro k2 hk2
    unfold RedisSet
    rw [hcfg]
    simp [hk2]

/-- Claim C5 counterexample.  `cache:k1` holds an entry that is unexpired
at `now = 10` (`expires_at = 1000`) with provider `p1` and model `m1`;
a `Set` carrying provider `p2` and model `m2` — `Set` takes no refresh
request at all — replaces it anyway. -/
theorem claim_C5_counterexample :
    c5OldEntry.expiresAt = 1000 ∧
    c5OldEntry.providerID = "p1" ∧ c5OldEntry.modelName = "m1" ∧
    RedisSet { enabled := true, defaultTTL := 60 } 10 c5Store0 "k1" "new" 50
        [("provider_id", MetaVal.str "p2"), ("model_name", MetaVal.str "m2")]
        "cache:k1" ≠ some ⟨JsonStr.enc c5OldEntry, 1000⟩ ∧
    RedisSet { enabled := true, defaultTTL := 60 } 10 c5Store0 "k1" "new" 50
        [("provider_id", MetaVal.str "p2"), ("model_name", MetaVal.str "m2")]
        "cache:k1" =
      some ⟨JsonStr.enc
        { key := "k1", response := "new",
          metadata := [("provider_id", MetaVal.str "p2"),
                       ("model_name", MetaVal.str "m2")],
          cachedAt := 10, expiresAt := 60,
          providerID := "p2", modelName := "m2" }, 60⟩ := by
  refine ⟨rfl, rfl, rfl, by decide, by decide⟩

/-- Claim C5 witness: the amended claim at a concrete conflicting
write. -/
theorem claim_C5_witness :
    ∃ e : Entry,
      RedisSet { enabled := true, defaultTTL := 60 } 10 c5Store0 "k1" "new" 50
          [("provider_id", MetaVal.str "p2"), ("model_name", MetaVal.str "m2")]
          ("cache:" ++ "k1") =
        some ⟨JsonStr.enc e, e.expiresAt⟩ ∧
      e.cachedAt = 10 ∧
      e.expiresAt = 10 + (if (50 : Int) = 0 then (60 : Int) else 50) ∧
      e.providerID = getStringFromMap
        [("provider_id", MetaVal.str "p2"), ("model_name", MetaVal.str "m2")]
        "provider_id" ∧
      e.modelName = getStringFromMap
        [("provider_id", MetaVal.str "p2"), ("model_name", MetaVal.str "m2")]
        "model_name" ∧
      e.tokensSaved = getInt64FromMap
        [("provider_id", MetaVal.str "p2"), ("model_name", MetaVal.str "m2")]
        "total_tokens" ∧
      ∀ k2, k2 ≠ "cache:" ++ "k1" →
        RedisSet { enabled := true, defaultTTL := 60 } 10 c5Store0 "k1" "new" 50
          [("provider_id", MetaVal.str "p2"), ("model_name", MetaVal.str "m2")]
          k2 = c5Store0 k2 :=
  claim_C5_amended { enabled := true, defaultTTL := 60 } rfl 10 c5Store0
    "k1" "new" 50
    [("provider_id", MetaVal.str "p2"), ("model_name", MetaVal.str "m2")]

/-- Claim C6 (amended).  `GetRelevantLessons` falls back to the
recency-based `GetLessonsForPrompt` exactly on: empty task context,
missing embedder, embedding error, empty embedding result, or a
similarity-search error; a similarity search that succeeds with zero
lessons yields the empty string, not the fallback. -/
theorem claim_C6_amended (dbNil : Bool) (db : LessonsDB)
    (projectID taskContext : String) (topK : Int) :
    (∀ em, taskContext = "" →
      GetRelevantLessons dbNil db (some em) projectID taskContext topK =
        GetLessonsForPrompt dbNil db projectID) ∧
    (GetRelevantLessons dbNil db none projectID taskContext topK =
        GetLessonsForPrompt dbNil db projectID) ∧
    (∀ em e, taskContext ≠ "" → em taskContext = Except.error e →
      GetRelevantLessons dbNil db (some em) projectID taskContext topK =
        GetLessonsForPrompt dbNil db projectID) ∧
    (∀ em, taskContext ≠ "" → (em taskContext = Except.ok [] ∨
        (∃ r, em taskContext = Except.ok ([] :: r))) →
      GetRelevantLessons dbNil db (some em) projectID taskContext topK =
        GetLessonsForPrompt dbNil db projectID) ∧
    (∀ em q r e, taskContext ≠ "" →
      em taskContext = Except.ok (q :: r) → q ≠ [] →
      db.searchBySimilarity projectID q (if topK ≤ 0 then 5 else topK) =
        Except.error e →
      GetRelevantLessons dbNil db (some em) projectID taskContext topK =
        GetLessonsForPrompt dbNil db projectID) ∧
    (∀ em q r, taskContext ≠ "" →
      em taskContext = Except.ok (q :: r) → q ≠ [] →
      db.searchBySimilarity projectID q (if topK ≤ 0 then 5 else topK) =
        Except.ok [] →
      GetRelevantLessons dbNil db (some em) projectID taskContext topK =
        "") := by
  by_cases hgate : dbNil = true ∨ projectID = ""
  · constructor
    · intro em _
      simp [GetRelevantLessons, GetLessonsForPrompt, hgate]
    constructor
    · simp [GetRelevantLessons, GetLessonsForPrompt, hgate]
    constructor
    · intro em e _ _
      simp [GetRelevantLessons, GetLessonsForPrompt, hgate]
    constructor
    · intro em _ _
      simp [GetRelevantLessons, GetLessonsForPrompt, hgate]
    constructor
    · intro em q r e _ _ _ _
      simp [GetRelevantLessons, GetLessonsForPrompt, hgate]
    · intro em q r _ _ _ _
      simp [GetRelevantLessons, hgate]
  · constructor
    · intro em htc
      simp [GetRelevantLessons, hgate, htc]
    constructor
    · simp [GetRelevantLessons, hgate]
    constructor
    · intro em e htc hee
      simp [GetRelevantLessons, hgate, htc, hee]
    constructor
    · intro em htc hee
      rcases hee with hee | ⟨r, hee⟩ <;>
        simp [GetRelevantLessons, hgate, htc, hee]
    constructor
    · intro em q r e htc hee hq hs
      simp [GetRelevantLessons, hgate, htc, hee, hq, hs]
    · intro em q r htc hee hq hs
      simp [GetRelevantLessons, hgate, htc, hee, hq, hs]

/-- Claim C6 counterexample.  With a nonempty task context, a working
embedder, and a database holding one lesson whose similarity search
returns no lessons, `GetRelevantLessons` returns `""` while the
recency-based retrieval it is claimed to fall back to returns a
nonempty lessons block. -/
theorem claim_C6_counterexample :
    GetRelevantLessons false c6DB (some c6Embed) "proj" "task" 5 = "" ∧
    GetLessonsForPrompt false c6DB "proj" ≠ "" := by
  refine ⟨rfl, by decide⟩

/-- Claim C6 witness: the empty-similarity branch of the amended claim at
the concrete database. -/
theorem claim_C6_witness :
    GetRelevantLessons false c6DB (some c6Embed) "proj" "task" 5 = "" :=
  (claim_C6_amended false c6DB "proj" "task" 5).2.2.2.2.2 c6Embed [1] []
    (by decide) rfl (by decide) rfl

/-- Decoding inverts the per-word byte split. -/
theorem decode4_flatMap (v : List Nat) (hb : ∀ x ∈ v, x < 2 ^ 32) :
    decode4 (v.flatMap enc4) = v := by
  induction v with
  | nil => rfl
  | cons x t ih =>
    have hx : x < 2 ^ 32 := hb x (List.mem_cons_self x t)
    have ht : ∀ y ∈ t, y < 2 ^ 32 :=
      fun y hy => hb y (List.mem_cons_of_mem x hy)
    show (x % 256 + 256 * (x / 256 % 256) + 65536 * (x / 65536 % 256) +
        16777216 * (x / 16777216 % 256)) :: decode4 (t.flatMap enc4) = x :: t
    rw [ih ht]
    congr 1
    omega

/-- Encoding emits four bytes per element. -/
theorem length_flatMap_enc4 (v : List Nat) :
    (v.flatMap enc4).length = 4 * v.length := by
  induction v with
  | nil => rfl
  | cons x t ih =>
    simp only [List.flatMap_cons, List.length_append, ih]
    simp [enc4]
    omega

/-- Claim C8.  Decoding the fixed-width little-endian byte encoding of a
float32 vector (each element identified with its 32-bit pattern) yields
the vector back exactly, element for element. -/
theorem claim_C8_roundtrip (v : List Nat) (hb : ∀ x ∈ v, x < 2 ^ 32) :
    DecodeEmbedding (EncodeEmbedding v) = v := by
  cases v with
  | nil => rfl
  | cons x t =>
    unfold EncodeEmbedding DecodeEmbedding
    rw [if_neg (List.cons_ne_nil x t)]
    have hlen : ((x :: t).flatMap enc4).length = 4 * (t.length + 1) := by
      rw [length_flatMap_enc4]
      simp
    rw [if_neg ?_]
    · exact decode4_flatMap (x :: t) hb
    · rw [hlen]
      omega

/-- Claim C8 witness: a concrete round trip (0, 1, an arbitrary pattern,
and the all-ones pattern). -/
theorem claim_C8_witness :
    DecodeEmbedding (EncodeEmbedding [0, 1, 3149642683, 4294967295]) =
      [0, 1, 3149642683, 4294967295] :=
  claim_C8_roundtrip [0, 1, 3149642683, 4294967295] (by decide)

/-- The FNV-1a and FNV-1 hashes of the same bytes always share parity:
both start from the odd offset basis and flip parity exactly by each
byte's low bit (the prime is odd). -/
theorem fnv_parity (bs : List Nat) : fnv1a32 bs % 2 = fnv1_32 bs % 2 := by
  unfold fnv1a32 fnv1_32
  suffices h : ∀ (h1 h2 : Nat), h1 % 2 = h2 % 2 →
      (bs.foldl (fun h b => ((h ^^^ b) * 16777619) % m32) h1) % 2 =
        (bs.foldl (fun h b => ((h * 16777619) % m32) ^^^ b) h2) % 2 from
    h _ _ rfl
  induction bs with
  | nil => intro h1 h2 hp; exact hp
  | cons b t ih =>
    intro h1 h2 hp
    simp only [List.foldl_cons]
    apply ih
    have hdvd : (2 : Nat) ∣ m32 := ⟨2147483648, rfl⟩
    have e1 : ((h1 ^^^ b) * 16777619) % m32 % 2 =
        ((h1 ^^^ b) * 16777619) % 2 := Nat.mod_mod_of_dvd _ hdvd
    have e3 : (h1 ^^^ b) % 2 = (h1 + b) % 2 := Nat.xor_mod_two_eq
    have e4 : (((h2 * 16777619) % m32) ^^^ b) % 2 =
        ((h2 * 16777619) % m32 + b) % 2 := Nat.xor_mod_two_eq
    have e5 : (h2 * 16777619) % m32 % 2 = (h2 * 16777619) % 2 :=
      Nat.mod_mod_of_dvd _ hdvd
    rw [e1, e4]
    omega

/-- Hence a token's sign is a function of its bucket alone: two tokens
hashing to the same index always contribute with the same sign, so
buckets never cancel. -/
theorem wordSign_eq_bucketSign (w : String) :
    wordSign w = bucketSign (wordIndex w) := by
  unfold wordSign bucketSign wordIndex
  have hdvd : (2 : Nat) ∣ 256 := ⟨128, rfl⟩
  rw [Nat.mod_mod_of_dvd _ hdvd, fnv_parity]

/-- Each bucket of the raw vector holds the signed count of the tokens
hashing to it. -/
theorem foldl_addTok (ts : List String) :
    ∀ (v : Fin 256 → Int) (i : Fin 256),
      (ts.foldl addTok v) i =
        v i + bucketSign (i : Nat) *
          ((ts.filter (fun w => wordIndex w = (i : Nat))).length : Int) := by
  induction ts with
  | nil => intro v i; simp
  | cons w t ih =>
    intro v i
    simp only [List.foldl_cons]
    rw [ih]
    by_cases hw : wordIndex w = (i : Nat)
    · have hs : wordSign w = bucketSign (i : Nat) := by
        rw [wordSign_eq_bucketSign, hw]
      rw [List.filter_cons, if_pos (by simpa using hw)]
      show addTok v w i + _ = _
      rw [addTok, if_pos hw.symm, hs, List.length_cons]
      push_cast
      ring
    · rw [List.filter_cons, if_neg (by simpa using hw)]
      show addTok v w i + _ = _
      rw [addTok, if_neg (fun h => hw h.symm)]

/-- A surviving token forces a nonzero raw vector. -/
theorem hashEmbedRaw_ne_zero (text : String) (hne : tokenize text ≠ []) :
    ¬ ∀ i, hashEmbedRaw text i = 0 := by
  intro hall
  obtain ⟨w, rest, hw⟩ : ∃ w rest, tokenize text = w :: rest := by
    cases h : tokenize text with
    | nil => exact absurd h hne
    | cons a b => exact ⟨a, b, rfl⟩
  have hidx : wordIndex w < 256 := Nat.mod_lt _ (by norm_num)
  have h1 := hall ⟨wordIndex w, hidx⟩
  rw [hashEmbedRaw, foldl_addTok] at h1
  simp only at h1
  rw [zero_add] at h1
  have hcount : 1 ≤
      ((tokenize text).filter
        (fun x => wordIndex x = wordIndex w)).length := by
    rw [hw, List.filter_cons, if_pos (by simp)]
    simp
  unfold bucketSign at h1
  split at h1 <;> omega

/-- Claim C7.  For every input with at least one surviving token the
embedded vector has L2 norm 1 (exact arithmetic), hence within
`[0.99, 1.01]`; for input with no surviving tokens — in particular the
empty string — the result is the zero vector with norm 0. -/
theorem claim_C7_embedder_norm :
    (∀ text, tokenize text ≠ [] →
      l2norm (hashEmbed text) = 1 ∧
      (99 / 100 : ℝ) ≤ l2norm (hashEmbed text) ∧
      l2norm (hashEmbed text) ≤ (101 / 100 : ℝ)) ∧
    (∀ text, tokenize text = [] →
      hashEmbed text = (fun _ => 0) ∧ l2norm (hashEmbed text) = 0) ∧
    (hashEmbed "" = (fun _ => 0) ∧ l2norm (hashEmbed "") = 0) := by
  have hzero : ∀ text, tokenize text = [] →
      hashEmbed text = (fun _ => 0) ∧ l2norm (hashEmbed text) = 0 := by
    intro text h
    have hraw : ∀ i, hashEmbedRaw text i = 0 := by
      intro i
      rw [hashEmbedRaw, h]
      rfl
    have hemb : hashEmbed text = (fun _ => 0) := by
      unfold hashEmbed
      rw [dif_pos hraw]
    refine ⟨hemb, ?_⟩
    rw [hemb]
    unfold l2norm l2normSq
    simp
  refine ⟨?_, hzero, hzero "" (by decide)⟩
  intro text h
  have hraw := hashEmbedRaw_ne_zero text h
  have hnorm : l2norm (hashEmbed text) = 1 := by
    unfold hashEmbed
    rw [dif_neg hraw]
    push_neg at hraw
    obtain ⟨i0, hi0⟩ := hraw
    have hs0 : (0 : ℝ) < ∑ j, ((hashEmbedRaw text j : ℝ)) ^ 2 := by
      refine Finset.sum_pos' (fun j _ => sq_nonneg _) ?_
      refine ⟨i0, Finset.mem_univ i0, ?_⟩
      have hcast : ((hashEmbedRaw text i0 : ℤ) : ℝ) ≠ 0 := by
        exact_mod_cast hi0
      exact pow_two_pos_of_ne_zero hcast
    have hsq : Real.sqrt (∑ j, ((hashEmbedRaw text j : ℝ)) ^ 2) ^ 2 =
        ∑ j, ((hashEmbedRaw text j : ℝ)) ^ 2 := Real.sq_sqrt hs0.le
    unfold l2norm l2normSq
    have hcalc : (∑ i, ((hashEmbedRaw text i : ℝ) /
        Real.sqrt (∑ j, ((hashEmbedRaw text j : ℝ)) ^ 2)) ^ 2) = 1 := by
      calc (∑ i, ((hashEmbedRaw text i : ℝ) /
            Real.sqrt (∑ j, ((hashEmbedRaw text j : ℝ)) ^ 2)) ^ 2)
          = (∑ i, ((hashEmbedRaw text i : ℝ)) ^ 2) /
            Real.sqrt (∑ j, ((hashEmbedRaw text j : ℝ)) ^ 2) ^ 2 := by
            simp only [div_pow]
            rw [← Finset.sum_div]
        _ = (∑ i, ((hashEmbedRaw text i : ℝ)) ^ 2) /
            (∑ j, ((hashEmbedRaw text j : ℝ)) ^ 2) := by rw [hsq]
        _ = 1 := div_self hs0.ne'
    rw [hcalc, Real.sqrt_one]
  refine ⟨hnorm, ?_, ?_⟩ <;> rw [hnorm] <;> norm_num

/-- Claim C7 witness: a concrete two-token input has norm exactly 1, and
a stopword-only input embeds to zero. -/
theorem claim_C7_witness :
    (l2norm (hashEmbed "hello world") = 1 ∧
      (99 / 100 : ℝ) ≤ l2norm (hashEmbed "hello world") ∧
      l2norm (hashEmbed "hello world") ≤ (101 / 100 : ℝ)) ∧
    (hashEmbed "the is at" = (fun _ => 0) ∧
      l2norm (hashEmbed "the is at") = 0) :=
  ⟨claim_C7_embedder_norm.1 "hello world" (by decide),
   claim_C7_embedder_norm.2.1 "the is at" (by decide)⟩

/-- A line starting with `:` cannot carry the `data: ` prefix. -/
theorem colon_not_data (l : String) (h : hasPrefix ":" l = true) :
    hasPrefix "data: " l = false := by
  have h2 : [':'].isPrefixOf l.data = true := h
  show (['d', 'a', 't', 'a', ':', ' ']).isPrefixOf l.data = false
  cases hl : l.data with
  | nil => rw [hl] at h2; simp [List.isPrefixOf] at h2
  | cons c cs =>
    rw [hl] at h2
    simp [List.isPrefixOf] at h2
    simp [List.isPrefixOf, ← h2]

/-- The empty line cannot carry the `data: ` prefix. -/
theorem empty_not_data : hasPrefix "data: " "" = false := rfl

/-- With a never-cancelled context the iteration index is irrelevant. -/
theorem readLoop_noCancel_idx (parse : String → Option StreamChunk)
    (handler : StreamChunk → Except String Unit) (ctxErr : String) :
    ∀ (lines : List String) (i j chunks : Nat) (readErr : Option String),
      readLoop parse handler noCancel ctxErr i chunks lines readErr =
        readLoop parse handler noCancel ctxErr j chunks lines readErr := by
  intro lines
  induction lines with
  | nil => intro i j c e; cases e <;> rfl
  | cons l rest ih =>
    intro i j c e
    rw [readLoop, readLoop]
    simp only [noCancel, Bool.false_eq_true, if_false]
    split
    · exact ih (i + 1) (j + 1) c e
    · split
      · exact ih (i + 1) (j + 1) c e
      · split
        · rfl
        · split
          · exact ih (i + 1) (j + 1) c e
          · split
            · rfl
            · exact ih (i + 1) (j + 1) (c + 1) e

/-- Processing a prefix of non-sentinel lines under a context that stays
open advances the index by the prefix length and the chunk counter by
the chunks the prefix parses. -/
theorem readLoop_append (parse : String → Option StreamChunk)
    (handler : StreamChunk → Except String Unit) (ctxErr : String)
    (ctxDone : Nat → Bool) :
    ∀ (pre : List String) (i chunks : Nat) (post : List String)
      (readErr : Option String),
      (∀ l ∈ pre, isDoneLine l = false) →
      (∀ l ∈ pre, chunkLine parse l = true →
        ∀ c, parse (dropChars l 6) = some c → handler c = Except.ok ()) →
      (∀ j, i ≤ j → j < i + pre.length → ctxDone j = false) →
      readLoop parse handler ctxDone ctxErr i chunks (pre ++ post) readErr =
        readLoop parse handler ctxDone ctxErr (i + pre.length)
          (chunks + countChunks parse pre) post readErr := by
  intro pre
  induction pre with
  | nil => intro i c post e _ _ _; simp [countChunks]
  | cons l rest ih =>
    intro i c post e hdone hh hctx
    have hci : ctxDone i = false := hctx i (Nat.le_refl i) (by simp)
    have hd : isDoneLine l = false := hdone l (List.mem_cons_self l rest)
    have hdone2 : ∀ x ∈ rest, isDoneLine x = false :=
      fun x hx => hdone x (List.mem_cons_of_mem l hx)
    have hh2 : ∀ x ∈ rest, chunkLine parse x = true →
        ∀ c, parse (dropChars x 6) = some c → handler c = Except.ok () :=
      fun x hx => hh x (List.mem_cons_of_mem l hx)
    have hctx2 : ∀ j, i + 1 ≤ j → j < (i + 1) + rest.length → ctxDone j = false := by
      intro j hj1 hj2
      refine hctx j (by omega) (by simp; omega)
    have hlen : i + (l :: rest).length = (i + 1) + rest.length := by
      simp; omega
    rw [List.cons_append, readLoop, hci]
    simp only [Bool.false_eq_true, if_false]
    by_cases h1 : (l = "" || hasPrefix ":" l) = true
    · have hcl : chunkLine parse l = false := by
        rcases Bool.or_eq_true_iff.mp h1 with h | h
        · have : l = "" := by simpa using h
          subst this
          simp [chunkLine, empty_not_data]
        · simp [chunkLine, colon_not_data l h]
      rw [if_pos h1, ih (i + 1) c post e hdone2 hh2 hctx2, hlen]
      have : countChunks parse (l :: rest) = countChunks parse rest := by
        unfold countChunks
        rw [List.filter_cons, if_neg (by simp [hcl])]
      rw [this]
    · rw [if_neg h1]
      by_cases h2 : hasPrefix "data: " l = true
      · have hnd : (dropChars l 6 = "[DONE]") = False := by
          unfold isDoneLine at hd
          rw [h2] at hd
          simpa using hd
        rw [if_neg (by simp [h2]), if_neg (by rw [hnd]; exact id)]
        cases hp : parse (dropChars l 6) with
        | none =>
          have hcl : chunkLine parse l = false := by
            simp [chunkLine, hp, h2]
          rw [ih (i + 1) c post e hdone2 hh2 hctx2, hlen]
          have : countChunks parse (l :: rest) = countChunks parse rest := by
            unfold countChunks
            rw [List.filter_cons, if_neg (by simp [hcl])]
          rw [this]
        | some chunk =>
          have hcl : chunkLine parse l = true := by
            simp [chunkLine, hp, h2]
            intro hcon
            rw [hnd] at hcon
            exact hcon.elim
          simp only [hh l (List.mem_cons_self l rest) hcl chunk hp]
          rw [ih (i + 1) (c + 1) post e hdone2 hh2 hctx2, hlen]
          have : countChunks parse (l :: rest) = countChunks parse rest + 1 := by
            unfold countChunks
            rw [List.filter_cons, if_pos (by simp [hcl])]
            simp
          rw [this]
          have : c + 1 + countChunks parse rest =
              c + (countChunks parse rest + 1) := by omega
          rw [this]
      · have hcl : chunkLine parse l = false := by
          simp [chunkLine]
          intro hcon
          rw [hcon] at h2
          exact absurd rfl h2
        rw [if_pos (by simp [h2]), ih (i + 1) c post e hdone2 hh2 hctx2, hlen]
        have : countChunks parse (l :: rest) = countChunks parse rest := by
          unfold countChunks
          rw [List.filter_cons, if_neg (by simp [hcl])]
        rw [this]

/-- Claim C9.  The streaming reader (i) returns success immediately on
the line `data: [DONE]`, whatever follows; (ii) skips blank lines and
lines beginning with `:`; (iii) when the stream ends with no scanner
error, no `[DONE]`, and no chunk parsed, returns the error
`stream ended without receiving any data`; (iv) cancellation observed
after at least one chunk surfaces as
`stream interrupted after N chunks: <ctx error>`. -/
theorem claim_C9_sse_reader :
    (∀ (parse : String → Option StreamChunk)
       (handler : StreamChunk → Except String Unit) (ctxErr : String)
       (pre post : List String) (readErr : Option String),
      (∀ c, handler c = Except.ok ()) →
      (∀ l ∈ pre, isDoneLine l = false) →
      readStreamingResponse parse handler noCancel ctxErr
        (pre ++ "data: [DONE]" :: post) readErr = Except.ok ()) ∧
    (∀ (parse : String → Option StreamChunk)
       (handler : StreamChunk → Except String Unit) (ctxErr : String)
       (l : String) (rest : List String) (readErr : Option String),
      (l = "" ∨ hasPrefix ":" l = true) →
      readStreamingResponse parse handler noCancel ctxErr (l :: rest) readErr =
        readStreamingResponse parse handler noCancel ctxErr rest readErr) ∧
    (∀ (parse : String → Option StreamChunk)
       (handler : StreamChunk → Except String Unit) (ctxErr : String)
       (lines : List String),
      (∀ l ∈ lines, isDoneLine l = false ∧ chunkLine parse l = false) →
      readStreamingResponse parse handler noCancel ctxErr lines none =
        Except.error "stream ended without receiving any data") ∧
    (∀ (parse : String → Option StreamChunk)
       (handler : StreamChunk → Except String Unit) (ctxErr : String)
       (pre : List String) (p : String) (post : List String)
       (readErr : Option String),
      (∀ c, handler c = Except.ok ()) →
      (∀ l ∈ pre, isDoneLine l = false) →
      1 ≤ countChunks parse pre →
      readStreamingResponse parse handler
          (fun j => decide (pre.length ≤ j)) ctxErr (pre ++ p :: post)
          readErr =
        Except.error ("stream interrupted after " ++
          toString (countChunks parse pre) ++ " chunks: " ++ ctxErr)) := by
  refine ⟨?_, ?_, ?_, ?_⟩
  · intro parse handler ctxErr pre post readErr hh hdone
    unfold readStreamingResponse
    rw [readLoop_append parse handler ctxErr noCancel pre 0 0 _ readErr
      hdone (fun l _ _ c _ => hh c) (fun j _ _ => rfl)]
    rfl
  · intro parse handler ctxErr l rest readErr hskip
    unfold readStreamingResponse
    rw [readLoop]
    have h1 : (l = "" || hasPrefix ":" l) = true := by
      rcases hskip with h | h
      · simp [h]
      · simp [h]
    simp only [noCancel, Bool.false_eq_true, if_false, h1, if_true]
    exact readLoop_noCancel_idx parse handler ctxErr rest 1 0 0 readErr
  · intro parse handler ctxErr lines hlines
    unfold readStreamingResponse
    have hzero : countChunks parse lines = 0 := by
      unfold countChunks
      rw [List.filter_eq_nil_iff.mpr ?_]
      · rfl
      · intro l hl
        simp [(hlines l hl).2]
    have htrav := readLoop_append parse handler ctxErr noCancel lines 0 0 [] none
      (fun l hl => (hlines l hl).1)
      (fun l hl hcl _ _ => absurd hcl (by simp [(hlines l hl).2]))
      (fun j _ _ => rfl)
    rw [List.append_nil] at htrav
    rw [htrav, hzero]
    rfl
  · intro parse handler ctxErr pre p post readErr hh hdone hcount
    unfold readStreamingResponse
    rw [readLoop_append parse handler _ _ pre 0 0 _ readErr hdone
      (fun l _ _ c _ => hh c) ?_]
    · rw [readLoop]
      rw [show (decide (pre.length ≤ 0 + pre.length)) = true by simp]
      rw [if_pos rfl, if_pos (by omega), Nat.zero_add]
    · intro j hj1 hj2
      simp only [Nat.zero_add] at hj2
      simp [Nat.not_le.mpr hj2]

/-- Claim C9 witness: one parsed chunk followed by cancellation surfaces
the interrupted-stream error with the chunk count. -/
theorem claim_C9_witness :
    readStreamingResponse (fun s => some { content := s })
        (fun _ => Except.ok ())
        (fun j => decide ((["data: x"] : List String).length ≤ j))
        "context canceled" (["data: x"] ++ "data: y" :: []) none =
      Except.error ("stream interrupted after " ++
        toString (countChunks (fun s => some { content := s }) ["data: x"]) ++
        " chunks: " ++ "context canceled") :=
  claim_C9_sse_reader.2.2.2 (fun s => some { content := s })
    (fun _ => Except.ok ()) "context canceled" ["data: x"] "data: y" []
    none (fun _ => rfl) (by decide) (by decide)

end AgentiCorp
